import Mathlib

/-!
# Verification of the linux-voice-assistant core

A shallow embedding, in Lean 4, of the core of the `linux_voice_assistant`
package:

* the wire-framing layer of `api_server.py` (`_read_varuint`, `data_received`,
  `_read`, `_remove_from_buffer`);
* the voice-pipeline state machine of `satellite.py`
  (`VoiceSatelliteProtocol`: `wakeup`, `stop`, `play_tts`, `_tts_finished`,
  `handle_voice_event`, `handle_timer_event`, announce handling, `_set_muted`,
  `connection_lost`, `handle_audio`, `process_packet`, and the
  `VoiceAssistantSetConfiguration` branch of `handle_message`);
* the audio-processing loop of `__main__.py` (`process_audio`), with its
  refractory gating;
* the entity state-subscription responses of `entity.py`.

Bytes are modelled as natural numbers (every byte of a Python `bytes` object
lies in `0..255`); mutable object state is modelled by explicit state passing,
and the side effects of a call (messages sent, player commands, ducking) are
returned as an explicit list of actions.
-/

namespace LVA

/-! ## Wire framing (`api_server.py`) -/

/-- One decoding step of `APIServer._read_varuint` (api_server.py lines
164-179).  The Python loop keeps `result`, `bitpos` and the position; here the
unread bytes are a list and `consumed` counts the bytes read so far.  The
Python update `result |= (val & 0x7F) << bitpos` only ever ORs in bits at or
above `bitpos`, all of which are zero in `result`, so it is written as the
equal arithmetic form `result + (val % 128) * 2 ^ bitpos`; for a byte
(`0 ≤ val < 256`) the test `(val & 0x80) == 0` is `val < 128`.  Running out of
bytes is Python's `-1` return, modelled as `none`. -/
def read_varuint_from : List Nat → Nat → Nat → Nat → Option (Nat × Nat)
  | [], _, _, _ => none
  | val :: rest, result, bitpos, consumed =>
      let result' := result + (val % 128) * 2 ^ bitpos
      if val < 128 then some (result', consumed + 1)
      else read_varuint_from rest result' (bitpos + 7) (consumed + 1)

/-- `APIServer._read_varuint` reading from the start of the unconsumed buffer:
returns the decoded value together with the number of bytes consumed, or
`none` when the buffer runs out (Python returns `-1`). -/
def read_varuint (buf : List Nat) : Option (Nat × Nat) :=
  read_varuint_from buf 0 0 0

/-- The body of the `while self._buffer_len >= 3` loop of
`APIServer.data_received` (api_server.py lines 117-142), with explicit fuel;
each loop iteration consumes at least one byte, so `buf.length` fuel is always
enough (`process_loop_go_stable` below).  Returns the list of
`(msg_type, packet_data)` pairs handed to `process_packet`, in order, together
with the bytes left in the receive buffer.  A bad preamble or an undecodable
varint logs and returns, keeping the buffer; an incomplete payload
(`self._read` returning `None`) also returns, keeping the buffer. -/
def process_loop_go : Nat → List Nat → List (Nat × List Nat) × List Nat
  | 0, buf => ([], buf)
  | fuel + 1, buf =>
    if buf.length < 3 then ([], buf)
    else
      match read_varuint buf with
      | none => ([], buf)                      -- "Incorrect preamble" (-1)
      | some (preamble, c1) =>
        if preamble ≠ 0 then ([], buf)         -- "Incorrect preamble"
        else
          match read_varuint (buf.drop c1) with
          | none => ([], buf)                  -- "Incorrect length" (-1)
          | some (len, c2) =>
            match read_varuint (buf.drop (c1 + c2)) with
            | none => ([], buf)                -- "Incorrect message type" (-1)
            | some (msg_type, c3) =>
              let pos := c1 + c2 + c3
              if len = 0 then
                -- Empty message (allowed): remove frame, process, continue
                let r := process_loop_go fuel (buf.drop pos)
                ((msg_type, []) :: r.1, r.2)
              else if buf.length < pos + len then
                ([], buf)                      -- `_read` returned None
              else
                let packet := (buf.drop pos).take len
                let r := process_loop_go fuel (buf.drop (pos + len))
                ((msg_type, packet) :: r.1, r.2)

/-- The framing loop of `APIServer.data_received` run on a buffer. -/
def process_loop (buf : List Nat) : List (Nat × List Nat) × List Nat :=
  process_loop_go buf.length buf

/-- The per-connection state touched by `data_received`: the receive buffer
and whether the transport is still open.  The body of `data_received`
(api_server.py lines 109-142) never touches `self._transport`; the only place
the server closes the transport is the `DisconnectRequest` branch of
`process_packet`, which is not reached from a framing error. -/
structure Conn where
  buffer : List Nat
  is_open : Bool
  deriving Repr, DecidableEq

/-- `APIServer.data_received`: append the new data to the receive buffer, then
run the framing loop; the decoded `(msg_type, packet_data)` pairs are returned
in the order they are handed to `process_packet`. -/
def data_received (c : Conn) (data : List Nat) : Conn × List (Nat × List Nat) :=
  let r := process_loop (c.buffer ++ data)
  ({ buffer := r.2, is_open := c.is_open }, r.1)

/-- A buffer on which the framing loop hits one of its error returns before
decoding a frame: at least 3 bytes are buffered (so the loop body runs) and
either the first varint (the preamble) is undecodable or nonzero, or, after a
zero preamble, the length varint or the message-type varint is undecodable. -/
def framing_error (buf : List Nat) : Prop :=
  3 ≤ buf.length ∧
    (match read_varuint buf with
     | none => True
     | some (preamble, c1) =>
       preamble ≠ 0 ∨
         (match read_varuint (buf.drop c1) with
          | none => True
          | some (_, c2) => read_varuint (buf.drop (c1 + c2)) = none))

/-- Modelled from the spec: the wire frame layout
`[0x00][varint length][varint type][payload bytes]` (spec sections 3, 4.1 and
6); the encoder itself lives in the external `aioesphomeapi` dependency
(`make_plain_text_packets`), not in this repository.  Standard LEB128:
7 data bits per byte, most-significant-bit continuation flag, little-endian
bit order. -/
def varuint_encode (n : Nat) : List Nat :=
  if n < 128 then [n] else (n % 128 + 128) :: varuint_encode (n / 128)
  termination_by n
  decreasing_by exact Nat.div_lt_self (by omega) (by omega)

/-- A well-formed frame before encoding: a message type and a payload. -/
structure Frame where
  msg_type : Nat
  payload : List Nat
  deriving Repr, DecidableEq

/-- Modelled from the spec: the encoding of one frame,
`[0x00][varint length][varint type][payload]`. -/
def encode_frame (f : Frame) : List Nat :=
  0 :: (varuint_encode f.payload.length ++ (varuint_encode f.msg_type ++ f.payload))

/-- The concatenated encoding of a sequence of frames (spec section 4.1:
encoding multiple messages may be coalesced into one write, preserving
order). -/
def encode_frames : List Frame → List Nat
  | [] => []
  | f :: fs => encode_frame f ++ encode_frames fs

/-- The `(msg_type, packet_data)` pair that decoding a frame hands to
`process_packet`. -/
def frame_msg (f : Frame) : Nat × List Nat :=
  (f.msg_type, f.payload)

/-- Repeated calls of `data_received`, one per chunk, threading the receive
buffer and collecting the decoded messages in order. -/
def feed_chunks (buf : List Nat) : List (List Nat) → List (Nat × List Nat) × List Nat
  | [] => ([], buf)
  | c :: cs =>
      let r1 := process_loop (buf ++ c)
      let r2 := feed_chunks r1.2 cs
      (r1.1 ++ r2.1, r2.2)

/-! ## The voice-pipeline state machine (`satellite.py`) -/

/-- The mutable flags of a `VoiceSatelliteProtocol` instance and of the
shared `ServerState` that the satellite's methods read and write:
`_is_streaming_audio`, `_tts_url`, `_tts_played`, `_continue_conversation`,
`_timer_finished`, `_processing`, `_pipeline_active` (satellite.py lines
155-161), `state.muted`, `state.stop_word.is_active`, `state.connected`,
`state.thinking_sound_enabled`, and whether `state.processing_sound` is
configured (truthy).  A missing or empty TTS URL (`data.get("url")` falsy)
is modelled as `none`. -/
structure SatState where
  muted : Bool
  stop_word_active : Bool
  is_streaming_audio : Bool
  tts_url : Option String
  tts_played : Bool
  continue_conversation : Bool
  timer_finished : Bool
  processing : Bool
  pipeline_active : Bool
  connected : Bool
  thinking_sound_enabled : Bool
  has_processing_sound : Bool
  deriving Repr, DecidableEq

/-- Protocol messages sent by the satellite that the claims mention.
`VoiceAssistantRequest(start=True)` with no explicit phrase carries the
protobuf default empty string. -/
inductive OutMsg where
  | voiceAssistantRequest (start : Bool) (wake_word_phrase : String)
  | voiceAssistantAnnounceFinished
  | voiceAssistantAudio (data : List Nat)
  | connectResponse
  | mediaPlayerStateResponse (key : Nat) (state : Nat) (volume : ℚ) (muted : Bool)
  | switchStateResponse (key : Nat) (state : Bool)
  deriving Repr, DecidableEq

/-- Sounds played through the TTS/announce player. -/
inductive Sound where
  | wakeup_sound
  | timer_finished_sound
  | processing_sound
  | url (u : String)
  | announcement (urls : List String)
  deriving Repr, DecidableEq

/-- The observable side effects of one satellite call: messages sent over
the wire, ducking/unducking of the music player, and commands to the
players. -/
inductive Action where
  | send (msg : OutMsg)
  | duck
  | unduck
  | tts_play (s : Sound)
  | tts_stop
  | music_stop
  deriving Repr, DecidableEq

/-- `VoiceSatelliteProtocol.play_tts` (satellite.py lines 405-413): no-op
when there is no TTS URL or it was already played; otherwise mark the TTS
played, activate the stop word and start playback (whose completion callback
is `_tts_finished`). -/
def play_tts (s : SatState) : SatState × List Action :=
  match s.tts_url with
  | none => (s, [])
  | some u =>
      if s.tts_played then (s, [])
      else ({ s with tts_played := true, stop_word_active := true },
            [Action.tts_play (Sound.url u)])

/-- `VoiceSatelliteProtocol._tts_finished` (satellite.py lines 425-441):
deactivate the stop word, send `VoiceAssistantAnnounceFinished`, then either
start a new pipeline run (continuation) or finish the run and unduck. -/
def tts_finished (s : SatState) : SatState × List Action :=
  let s1 := { s with stop_word_active := false }
  let cont := s1.continue_conversation
  let s2 := { s1 with continue_conversation := false }
  if cont then
    ({ s2 with is_streaming_audio := true, pipeline_active := true },
     [Action.send OutMsg.voiceAssistantAnnounceFinished,
      Action.send (OutMsg.voiceAssistantRequest true "")])
  else
    ({ s2 with pipeline_active := false },
     [Action.send OutMsg.voiceAssistantAnnounceFinished, Action.unduck])

/-- `VoiceSatelliteProtocol.wakeup` (satellite.py lines 366-390). -/
def wakeup (wake_word_phrase : String) (s : SatState) : SatState × List Action :=
  if s.timer_finished then
    -- Stop timer instead
    ({ s with timer_finished := false }, [Action.tts_stop])
  else if s.muted then
    -- Don't respond to wake words when muted
    (s, [])
  else if s.pipeline_active then
    -- Ignoring wake word while pipeline is active
    (s, [])
  else
    ({ s with is_streaming_audio := true, pipeline_active := true },
     [Action.send (OutMsg.voiceAssistantRequest true wake_word_phrase),
      Action.duck, Action.tts_play Sound.wakeup_sound])

/-- `VoiceSatelliteProtocol.stop` (satellite.py lines 392-403). -/
def stop (s : SatState) : SatState × List Action :=
  let s1 := { s with stop_word_active := false, continue_conversation := false,
                     pipeline_active := false }
  if s1.timer_finished then
    ({ s1 with timer_finished := false }, [Action.tts_stop])
  else
    let r := tts_finished s1
    (r.1, Action.tts_stop :: r.2)

/-- The pipeline event kinds of `handle_voice_event` (satellite.py lines
192-233), with the `data` fields each branch reads. -/
inductive VoiceEvent where
  | run_start (url : Option String)
  | intent_start
  | stt_vad_end
  | stt_end
  | intent_progress (tts_start_streaming : Bool)
  | intent_end (continue_conversation : Bool)
  | tts_end (url : Option String)
  | run_end
  deriving Repr, DecidableEq

/-- `VoiceSatelliteProtocol.handle_voice_event` (satellite.py lines
192-233). -/
def handle_voice_event (e : VoiceEvent) (s : SatState) : SatState × List Action :=
  match e with
  | VoiceEvent.run_start url =>
      ({ s with tts_url := url, tts_played := false,
                continue_conversation := false, pipeline_active := true }, [])
  | VoiceEvent.intent_start =>
      if s.thinking_sound_enabled && s.has_processing_sound then
        ({ s with stop_word_active := true, processing := true },
         [Action.duck, Action.tts_play Sound.processing_sound])
      else (s, [])
  | VoiceEvent.stt_vad_end => ({ s with is_streaming_audio := false }, [])
  | VoiceEvent.stt_end => ({ s with is_streaming_audio := false }, [])
  | VoiceEvent.intent_progress b => if b then play_tts s else (s, [])
  | VoiceEvent.intent_end c =>
      if c then ({ s with continue_conversation := true }, []) else (s, [])
  | VoiceEvent.tts_end url => play_tts { s with tts_url := url }
  | VoiceEvent.run_end =>
      let s1 := { s with is_streaming_audio := false }
      if s1.tts_played then ({ s1 with tts_played := false }, [])
      else
        let r := tts_finished s1
        ({ r.1 with tts_played := false }, r.2)

/-- The `VOICE_ASSISTANT_TIMER_FINISHED` branch of
`VoiceSatelliteProtocol.handle_timer_event` (satellite.py lines 235-246):
activate the stop word, mark the timer ringing, duck, and start the looping
chime (`_play_timer_finished`). -/
def handle_timer_finished (s : SatState) : SatState × List Action :=
  if s.timer_finished then (s, [])
  else
    ({ s with stop_word_active := true, timer_finished := true },
     [Action.duck, Action.tts_play Sound.timer_finished_sound])

/-- The `VoiceAssistantAnnounceRequest` branch of
`VoiceSatelliteProtocol.handle_message` (satellite.py lines 256-273):
activate the stop word, record the start-conversation flag, duck, and play
the (optional pre-announcement plus) announcement through the media player
entity with `_tts_finished` as completion callback. -/
def handle_announce (preannounce : Option String) (media_id : String)
    (start_conversation : Bool) (s : SatState) : SatState × List Action :=
  let urls := (match preannounce with | some p => [p] | none => []) ++ [media_id]
  ({ s with stop_word_active := true, continue_conversation := start_conversation },
   [Action.duck, Action.tts_play (Sound.announcement urls)])

/-- `VoiceSatelliteProtocol._set_muted` (satellite.py lines 165-179). -/
def set_muted (new_state : Bool) (s : SatState) : SatState × List Action :=
  let s1 := { s with muted := new_state }
  if new_state then
    ({ s1 with is_streaming_audio := false, stop_word_active := false },
     [Action.tts_stop])
  else (s1, [])

/-- `VoiceSatelliteProtocol.connection_lost` (satellite.py lines 455-485). -/
def connection_lost (s : SatState) : SatState × List Action :=
  ({ s with is_streaming_audio := false, tts_url := none, tts_played := false,
            continue_conversation := false, timer_finished := false,
            pipeline_active := false, stop_word_active := false,
            connected := false },
   [Action.music_stop, Action.tts_stop])

/-- `VoiceSatelliteProtocol.handle_audio` (satellite.py lines 359-364). -/
def handle_audio (s : SatState) (audio_chunk : List Nat) : List Action :=
  if !s.is_streaming_audio || s.muted then []
  else [Action.send (OutMsg.voiceAssistantAudio audio_chunk)]

/-- The calls into the satellite that mutate its pipeline state: wake
detections, hub pipeline events, announce requests, timer-finished events,
stop-word stops, TTS playback completion, mute toggles, and connection
loss. -/
inductive Ev where
  | wakeup (phrase : String)
  | voice (e : VoiceEvent)
  | announce (preannounce : Option String) (media_id : String) (start_conversation : Bool)
  | timer_finished_event
  | stop_event
  | tts_finished_event
  | set_muted (b : Bool)
  | connection_lost
  deriving Repr, DecidableEq

/-- Dispatch one event to the corresponding satellite method. -/
def step (s : SatState) : Ev → SatState × List Action
  | Ev.wakeup p => wakeup p s
  | Ev.voice e => handle_voice_event e s
  | Ev.announce pre m sc => handle_announce pre m sc s
  | Ev.timer_finished_event => handle_timer_finished s
  | Ev.stop_event => stop s
  | Ev.tts_finished_event => tts_finished s
  | Ev.set_muted b => set_muted b s
  | Ev.connection_lost => connection_lost s

/-- A sequence of satellite calls, collecting all emitted actions. -/
def run (s : SatState) : List Ev → SatState × List Action
  | [] => (s, [])
  | e :: evs =>
      let r1 := step s e
      let r2 := run r1.1 evs
      (r2.1, r1.2 ++ r2.2)

/-- The flag state of a freshly constructed `VoiceSatelliteProtocol`
(satellite.py lines 52-163 set `connected = False` and all per-run flags
false; `thinking_sound_enabled` defaults to false when no preference is
stored).  The stop model's `is_active` flag is not assigned by `__init__`;
it is modelled as initially false (the counterexamples below force it false
through `_set_muted` before relying on it). -/
def init_state : SatState :=
  { muted := false, stop_word_active := false, is_streaming_audio := false,
    tts_url := none, tts_played := false, continue_conversation := false,
    timer_finished := false, processing := false, pipeline_active := false,
    connected := false, thinking_sound_enabled := false,
    has_processing_sound := true }

/-- The events that set the stop-word gate `state.stop_word.is_active` to
false: manual stop, TTS completion, muting, connection loss, and a pipeline
run-end (which calls `_tts_finished` when the TTS was not yet played). -/
def deactivating (e : Ev) : Prop :=
  e = Ev.stop_event ∨ e = Ev.tts_finished_event ∨ e = Ev.set_muted true ∨
    e = Ev.connection_lost ∨ e = Ev.voice VoiceEvent.run_end

instance (e : Ev) : Decidable (deactivating e) := by
  unfold deactivating
  infer_instance

/-! ## The audio-processing loop (`__main__.py`, `process_audio`) -/

/-- One microphone chunk as seen by one iteration of the `process_audio`
loop (`__main__.py` lines 295-335): the value of `time.monotonic()` when the
refractory check runs, for each active wake model whether its streaming
classifier fired on this chunk (together with the model's wake phrase), and
whether the stop model fired.  Clock readings are modelled as exact
rationals. -/
structure AudioChunk where
  time : ℚ
  wake_fired : List (Bool × String)
  stop_fired : Bool
  data : List Nat

/-- The refractory condition of `process_audio` (`__main__.py` lines
322-324): `(last_active is None) or ((now - last_active) > refractory_seconds)`. -/
def gate_open (r : ℚ) (last : Option ℚ) (now : ℚ) : Bool :=
  match last with
  | none => true
  | some t0 => decide (now - t0 > r)

/-- The `for wake_word in wake_words` loop of `process_audio` (`__main__.py`
lines 307-326): for each model that fired while the satellite is not muted,
the shared refractory timestamp gates the call to `satellite.wakeup`; the
timestamp is set to `now` exactly when an activation is forwarded.  Returns
the satellite state, the refractory timestamp, the actions emitted by the
`wakeup` calls, and the number of `wakeup` calls made. -/
def wake_words_loop (r now : ℚ) : List (Bool × String) → SatState → Option ℚ →
    SatState × Option ℚ × List Action × Nat
  | [], s, last => (s, last, [], 0)
  | m :: ms, s, last =>
      if m.1 && !s.muted then
        if gate_open r last now then
          let w := wakeup m.2 s
          let rest := wake_words_loop r now ms w.1 (some now)
          (rest.1, rest.2.1, w.2 ++ rest.2.2.1, rest.2.2.2 + 1)
        else wake_words_loop r now ms s last
      else wake_words_loop r now ms s last

/-- One iteration of the `process_audio` consume loop for one chunk
(`__main__.py` lines 295-335): forward the chunk to `handle_audio`, run the
wake-model loop with refractory gating, then forward a stop-word firing to
`satellite.stop()` when the stop model is gated active and the satellite is
not muted. -/
def process_audio_chunk (r : ℚ) (s : SatState) (last : Option ℚ)
    (c : AudioChunk) : SatState × Option ℚ × List Action × Nat :=
  let audio_acts := handle_audio s c.data
  let w := wake_words_loop r c.time c.wake_fired s last
  if c.stop_fired && w.1.stop_word_active && !w.1.muted then
    let r2 := stop w.1
    (r2.1, w.2.1, audio_acts ++ w.2.2.1 ++ r2.2, w.2.2.2)
  else
    (w.1, w.2.1, audio_acts ++ w.2.2.1, w.2.2.2)

/-- The `process_audio` loop over a sequence of chunks, threading the
satellite state and the shared `last_active` timestamp; returns also the
number of forwarded activations (`wakeup` calls) per chunk. -/
def process_audio_run (r : ℚ) : SatState → Option ℚ → List AudioChunk →
    SatState × Option ℚ × List Action × List Nat
  | s, last, [] => (s, last, [], [])
  | s, last, c :: cs =>
      let r1 := process_audio_chunk r s last c
      let r2 := process_audio_run r r1.1 r1.2.1 cs
      (r2.1, r2.2.1, r1.2.2.1 ++ r2.2.2.1, r1.2.2.2 :: r2.2.2.2)

/-- Trace-level description of the refractory timestamp: the time of the
last chunk on which at least one activation was forwarded (`none`/the
initial value if none was). -/
def last_forwarded : Option ℚ → List AudioChunk → List Nat → Option ℚ
  | last, [], _ => last
  | last, _ :: _, [] => last
  | last, c :: cs, n :: ns =>
      last_forwarded (if 0 < n then some c.time else last) cs ns

/-- The refractory gate of `process_audio` (`__main__.py` lines 321-324):
open when no activation was ever forwarded, or when the elapsed time since
the last forwarded activation strictly exceeds the refractory interval. -/
def gate (r : ℚ) (last : Option ℚ) (now : ℚ) : Prop :=
  last = none ∨ (∃ t0, last = some t0 ∧ now - t0 > r)

/-! ## `VoiceAssistantSetConfiguration` handling (`satellite.py` lines 327-357) -/

/-- The set `active_wake_words` built by the first loop of the
`VoiceAssistantSetConfiguration` branch (satellite.py lines 329-348):
requested ids that are already loaded (keys of `state.wake_words`) are
added and iteration continues; the first id that is not loaded but is
available is loaded, added, and the loop `break`s; unrecognized ids are
skipped. -/
def active_after (loaded available : List String) : List String → List String
  | [] => []
  | id :: rest =>
      if loaded.contains id then id :: active_after loaded available rest
      else if available.contains id then [id]
      else active_after loaded available rest

/-- The id loaded by that loop, if any: the first requested id that is not
already loaded but is available (the loop `break`s right after loading
it). -/
def newly_loaded (loaded available : List String) : List String → Option String
  | [] => none
  | id :: rest =>
      if loaded.contains id then newly_loaded loaded available rest
      else if available.contains id then some id
      else newly_loaded loaded available rest

/-- The whole `VoiceAssistantSetConfiguration` branch, acting on
`state.wake_words` modelled as an insertion-ordered list of
`(id, is_active)` pairs: the first loop may load (append) at most one new
model, then the second loop (satellite.py lines 350-351) sets every loaded
model's `is_active` to membership in the computed active set.  The freshly
loaded model is appended with an arbitrary initial flag (`false`), which
the second loop immediately overwrites. -/
def set_configuration (wake_words : List (String × Bool))
    (available requested : List String) : List (String × Bool) :=
  let loaded := wake_words.map Prod.fst
  let act := active_after loaded available requested
  let ww1 := wake_words ++
    (match newly_loaded loaded available requested with
     | some id => [(id, false)]
     | none => [])
  ww1.map (fun p => (p.1, act.contains p.1))

/-! ## Entities and the `ConnectRequest` hook (`entity.py`, `satellite.py`
lines 487-497) -/

/-- The registered entity kinds (`entity.py`): the media player with its
reported state fields, and the two switches whose state-subscribe responses
read the live `ServerState` flags through their `get_*` closures. -/
inductive Entity where
  | media_player (key : Nat) (mp_state : Nat) (volume : ℚ) (mp_muted : Bool)
  | mute_switch (key : Nat)
  | thinking_sound (key : Nat)
  deriving Repr, DecidableEq

/-- `handle_message` of each entity on a
`SubscribeHomeAssistantStatesRequest` (entity.py lines 188-190, 295-298 and
352-355): each yields exactly one current-state message (the switches first
sync their internal state from the live flag, then report it). -/
def entity_subscribe_states (muted thinking_sound_enabled : Bool) :
    Entity → List OutMsg
  | Entity.media_player key st vol m =>
      [OutMsg.mediaPlayerStateResponse key st vol m]
  | Entity.mute_switch key => [OutMsg.switchStateResponse key muted]
  | Entity.thinking_sound key =>
      [OutMsg.switchStateResponse key thinking_sound_enabled]

/-- The single current-state message of an entity, following the claim's
words ("one current-state message for every registered entity"). -/
def entity_state_msg (muted thinking_sound_enabled : Bool) : Entity → OutMsg
  | Entity.media_player key st vol m =>
      OutMsg.mediaPlayerStateResponse key st vol m
  | Entity.mute_switch key => OutMsg.switchStateResponse key muted
  | Entity.thinking_sound key =>
      OutMsg.switchStateResponse key thinking_sound_enabled

/-- `VoiceSatelliteProtocol.process_packet` on a `ConnectRequest`
(satellite.py lines 487-497 plus the base-class branch, api_server.py lines
63-64): the base class replies with the empty `ConnectResponse`; then the
satellite sets `state.connected = True`, collects every entity's response
to a `SubscribeHomeAssistantStatesRequest`, and sends them in entity
order. -/
def process_connect (s : SatState) (entities : List Entity) :
    SatState × List OutMsg :=
  ({ s with connected := true },
   OutMsg.connectResponse ::
     (entities.map (entity_subscribe_states s.muted s.thinking_sound_enabled)).flatten)

/-! ## Theorems -/

/-! ## Helper lemmas on the varint codec -/

theorem read_varuint_from_consumed {l : List Nat} {res bp c v k : Nat}
    (h : read_varuint_from l res bp c = some (v, k)) :
    c + 1 ≤ k ∧ k ≤ c + l.length := by
  induction l generalizing res bp c with
  | nil => simp [read_varuint_from] at h
  | cons a t ih =>
    simp only [read_varuint_from] at h
    split at h
    · cases h
      simp only [List.length_cons]
      omega
    · have := ih h
      simp only [List.length_cons]
      omega

theorem read_varuint_consumed {l : List Nat} {v k : Nat}
    (h : read_varuint l = some (v, k)) : 1 ≤ k ∧ k ≤ l.length := by
  have := read_varuint_from_consumed h
  omega

theorem process_loop_go_small {fuel : Nat} {buf : List Nat}
    (h : buf.length < 3) : process_loop_go fuel buf = ([], buf) := by
  cases fuel with
  | zero => rfl
  | succ n => simp [process_loop_go, h]

theorem process_loop_go_stable : ∀ (f₁ f₂ : Nat) (buf : List Nat),
    buf.length ≤ f₁ → buf.length ≤ f₂ →
    process_loop_go f₁ buf = process_loop_go f₂ buf := by
  intro f₁
  induction f₁ using Nat.strong_induction_on with
  | _ f₁ ih =>
    intro f₂ buf h1 h2
    by_cases hsmall : buf.length < 3
    · rw [process_loop_go_small hsmall, process_loop_go_small hsmall]
    · match f₁, f₂ with
      | 0, _ => omega
      | _, 0 => omega
      | a + 1, b + 1 =>
        simp only [process_loop_go, hsmall, if_false]
        match h1p : read_varuint buf with
        | none => rfl
        | some (preamble, c1) =>
          simp only []
          by_cases hpre : preamble ≠ 0
          · simp [hpre]
          · simp only [hpre, if_false, ite_false, ne_eq, not_true_eq_false, not_not]
            match h2p : read_varuint (buf.drop c1) with
            | none => rfl
            | some (len, c2) =>
              simp only []
              match h3p : read_varuint (buf.drop (c1 + c2)) with
              | none => rfl
              | some (msg_type, c3) =>
                simp only []
                have hc1 := read_varuint_consumed h1p
                have hrec1 : (buf.drop (c1 + c2 + c3)).length ≤ a ∧
                    (buf.drop (c1 + c2 + c3)).length ≤ b := by
                  simp [List.length_drop]
                  omega
                by_cases hlen : len = 0
                · simp only [hlen, if_true, ite_true]
                  rw [ih a (by omega) b (buf.drop (c1 + c2 + c3)) hrec1.1 hrec1.2]
                · simp only [hlen, if_false, ite_false]
                  by_cases hshort : buf.length < c1 + c2 + c3 + len
                  · simp [hshort]
                  · simp only [hshort, if_false, ite_false]
                    have hrec2 : (buf.drop (c1 + c2 + c3 + len)).length ≤ a ∧
                        (buf.drop (c1 + c2 + c3 + len)).length ≤ b := by
                      simp [List.length_drop]
                      omega
                    rw [ih a (by omega) b (buf.drop (c1 + c2 + c3 + len)) hrec2.1 hrec2.2]

theorem process_loop_go_spec {fuel : Nat} {buf : List Nat} (h : buf.length ≤ fuel) :
    process_loop_go fuel buf = process_loop buf :=
  process_loop_go_stable fuel buf.length buf h (Nat.le_refl _)

/-- One unfolding of the framing loop, phrased in terms of `process_loop`
itself. -/
theorem process_loop_unfold (buf : List Nat) :
    process_loop buf =
      (if buf.length < 3 then ([], buf)
       else
         match read_varuint buf with
         | none => ([], buf)
         | some (preamble, c1) =>
           if preamble ≠ 0 then ([], buf)
           else
             match read_varuint (buf.drop c1) with
             | none => ([], buf)
             | some (len, c2) =>
               match read_varuint (buf.drop (c1 + c2)) with
               | none => ([], buf)
               | some (msg_type, c3) =>
                 let pos := c1 + c2 + c3
                 if len = 0 then
                   let r := process_loop (buf.drop pos)
                   ((msg_type, []) :: r.1, r.2)
                 else if buf.length < pos + len then ([], buf)
                 else
                   let packet := (buf.drop pos).take len
                   let r := process_loop (buf.drop (pos + len))
                   ((msg_type, packet) :: r.1, r.2)) := by
  by_cases hsmall : buf.length < 3
  · simp [process_loop, process_loop_go_small hsmall, hsmall]
  · have h3 : 3 ≤ buf.length := by omega
    have hbufpos : buf.length = (buf.length - 1) + 1 := by omega
    conv_lhs => rw [process_loop, hbufpos]
    simp only [process_loop_go, hsmall, if_false, ite_false]
    match h1p : read_varuint buf with
    | none => rfl
    | some (preamble, c1) =>
      simp only []
      by_cases hpre : preamble ≠ 0
      · simp [hpre]
      · simp only [hpre, ne_eq, not_true_eq_false, not_not, if_false, ite_false,
          not_false_eq_true, if_true, ite_true]
        match h2p : read_varuint (buf.drop c1) with
        | none => rfl
        | some (len, c2) =>
          simp only []
          match h3p : read_varuint (buf.drop (c1 + c2)) with
          | none => rfl
          | some (msg_type, c3) =>
            simp only []
            have hc1 := read_varuint_consumed h1p
            by_cases hlen : len = 0
            · simp only [hlen, if_true, ite_true]
              rw [process_loop_go_spec (by simp [List.length_drop]; omega)]
            · simp only [hlen, if_false, ite_false]
              by_cases hshort : buf.length < c1 + c2 + c3 + len
              · simp [hshort]
              · simp only [hshort, if_false, ite_false]
                rw [process_loop_go_spec (by simp [List.length_drop]; omega)]

theorem varuint_encode_byte_lt (n : Nat) : ∀ b ∈ varuint_encode n, b < 256 := by
  induction n using Nat.strong_induction_on with
  | _ n ih =>
    rw [varuint_encode]
    split
    · intro b hb
      simp at hb
      omega
    · intro b hb
      simp at hb
      rcases hb with h | h
      · omega
      · exact ih (n / 128) (Nat.div_lt_self (by omega) (by omega)) b h

theorem varuint_encode_length_pos (n : Nat) : 1 ≤ (varuint_encode n).length := by
  rw [varuint_encode]
  split <;> simp

theorem read_varuint_from_encode (n : Nat) : ∀ (rest : List Nat) (res bp c : Nat),
    read_varuint_from (varuint_encode n ++ rest) res bp c =
      some (res + n * 2 ^ bp, c + (varuint_encode n).length) := by
  induction n using Nat.strong_induction_on with
  | _ n ih =>
    intro rest res bp c
    rw [varuint_encode]
    by_cases h : n < 128
    · simp only [h, if_true, ite_true, List.cons_append, List.nil_append,
        read_varuint_from, List.length_cons, List.length_nil]
      have hm : n % 128 = n := Nat.mod_eq_of_lt h
      simp [hm, h]
    · simp only [h, if_false, ite_false, List.cons_append, read_varuint_from]
      have hge : ¬ (n % 128 + 128 < 128) := by omega
      simp only [hge, if_false, ite_false]
      have hmod : (n % 128 + 128) % 128 = n % 128 := by omega
      rw [hmod]
      rw [ih (n / 128) (Nat.div_lt_self (by omega) (by omega)) rest]
      have hsplit : n % 128 + 128 * (n / 128) = n := Nat.mod_add_div n 128
      have hpow : (2 : Nat) ^ (bp + 7) = 2 ^ bp * 128 := by
        rw [pow_add]
        norm_num
      have h1 : res + n % 128 * 2 ^ bp + n / 128 * 2 ^ (bp + 7) = res + n * 2 ^ bp := by
        rw [hpow]
        calc res + n % 128 * 2 ^ bp + n / 128 * (2 ^ bp * 128)
            = res + (n % 128 + 128 * (n / 128)) * 2 ^ bp := by ring
          _ = res + n * 2 ^ bp := by rw [hsplit]
      have h2 : c + 1 + (varuint_encode (n / 128)).length =
          c + ((n % 128 + 128) :: varuint_encode (n / 128)).length := by
        simp only [List.length_cons]
        omega
      rw [h1, h2]

theorem read_varuint_encode (n : Nat) (rest : List Nat) :
    read_varuint (varuint_encode n ++ rest) =
      some (n, (varuint_encode n).length) := by
  rw [read_varuint, read_varuint_from_encode]
  simp

theorem read_varuint_from_proper (n : Nat) : ∀ (p t : List Nat) (res bp c : Nat),
    p ++ t = varuint_encode n → t ≠ [] →
    read_varuint_from p res bp c = none := by
  induction n using Nat.strong_induction_on with
  | _ n ih =>
    intro p t res bp c hpt ht
    rw [varuint_encode] at hpt
    by_cases h : n < 128
    · simp only [h, if_true, ite_true] at hpt
      match p with
      | [] => rfl
      | a :: p' =>
        simp only [List.cons_append, List.cons.injEq] at hpt
        have : p' ++ t = [] := hpt.2
        rcases List.append_eq_nil.mp this with ⟨-, h2⟩
        exact absurd h2 ht
    · simp only [h, if_false, ite_false] at hpt
      match p with
      | [] => rfl
      | a :: p' =>
        simp only [List.cons_append, List.cons.injEq] at hpt
        have ha : a = n % 128 + 128 := hpt.1
        have hge : ¬ (a < 128) := by omega
        simp only [read_varuint_from, hge, if_false, ite_false]
        exact ih (n / 128) (Nat.div_lt_self (by omega) (by omega)) p' t _ _ _ hpt.2 ht

/-- Splitting an equality of concatenations at the length of the shorter left
part. -/
theorem append_eq_append_split {α : Type} : ∀ (a c b d : List α),
    a ++ b = c ++ d → a.length ≤ c.length →
    ∃ m, c = a ++ m ∧ b = m ++ d := by
  intro a
  induction a with
  | nil =>
    intro c b d h _
    exact ⟨c, rfl, h⟩
  | cons x a' ih =>
    intro c b d h hlen
    match c with
    | [] => simp at hlen
    | y :: c' =>
      simp only [List.cons_append, List.cons.injEq] at h
      obtain ⟨m, hm1, hm2⟩ := ih c' b d h.2 (by simpa using hlen)
      exact ⟨m, by simp [h.1, hm1], hm2⟩

theorem encode_frame_length (f : Frame) :
    (encode_frame f).length =
      1 + (varuint_encode f.payload.length).length +
        (varuint_encode f.msg_type).length + f.payload.length := by
  simp [encode_frame, List.length_append]
  omega

theorem encode_frame_length_ge (f : Frame) : 3 ≤ (encode_frame f).length := by
  have h1 := varuint_encode_length_pos f.payload.length
  have h2 := varuint_encode_length_pos f.msg_type
  rw [encode_frame_length]
  omega

theorem varuint_encode_zero : varuint_encode 0 = [0] := by
  rw [varuint_encode]
  simp

/-- Decoding a complete well-formed frame at the head of the buffer: the frame
is emitted and the loop continues on the remaining bytes. -/
theorem process_loop_encode_frame (f : Frame) (rest : List Nat) :
    process_loop (encode_frame f ++ rest) =
      (frame_msg f :: (process_loop rest).1, (process_loop rest).2) := by
  have h0len : (varuint_encode 0).length = 1 := by simp [varuint_encode_zero]
  have hbuf : encode_frame f ++ rest =
      varuint_encode 0 ++ (varuint_encode f.payload.length ++
        (varuint_encode f.msg_type ++ (f.payload ++ rest))) := by
    simp [encode_frame, varuint_encode_zero]
  have hlen3 : ¬ ((encode_frame f ++ rest).length < 3) := by
    rw [List.length_append]
    have := encode_frame_length_ge f
    omega
  rw [process_loop_unfold, hbuf]
  have hlen3' : ¬ ((varuint_encode 0 ++ (varuint_encode f.payload.length ++
      (varuint_encode f.msg_type ++ (f.payload ++ rest)))).length < 3) := by
    rw [← hbuf]
    exact hlen3
  rw [if_neg hlen3']
  have hdrop1 : (varuint_encode 0 ++ (varuint_encode f.payload.length ++
      (varuint_encode f.msg_type ++ (f.payload ++ rest)))).drop ((varuint_encode 0).length) =
      varuint_encode f.payload.length ++ (varuint_encode f.msg_type ++ (f.payload ++ rest)) :=
    List.drop_left _ _
  have hdrop2 : (varuint_encode 0 ++ (varuint_encode f.payload.length ++
      (varuint_encode f.msg_type ++ (f.payload ++ rest)))).drop
      ((varuint_encode 0).length + (varuint_encode f.payload.length).length) =
      varuint_encode f.msg_type ++ (f.payload ++ rest) := by
    have hcomb : varuint_encode 0 ++ (varuint_encode f.payload.length ++
        (varuint_encode f.msg_type ++ (f.payload ++ rest))) =
        (varuint_encode 0 ++ varuint_encode f.payload.length) ++
          (varuint_encode f.msg_type ++ (f.payload ++ rest)) := by simp
    have hl : ((varuint_encode 0 ++ varuint_encode f.payload.length)).length =
        (varuint_encode 0).length + (varuint_encode f.payload.length).length := by
      simp
    rw [hcomb, ← hl, List.drop_left]
  have hdrop3 : (varuint_encode 0 ++ (varuint_encode f.payload.length ++
      (varuint_encode f.msg_type ++ (f.payload ++ rest)))).drop
      ((varuint_encode 0).length + (varuint_encode f.payload.length).length +
        (varuint_encode f.msg_type).length) = f.payload ++ rest := by
    have hcomb : varuint_encode 0 ++ (varuint_encode f.payload.length ++
        (varuint_encode f.msg_type ++ (f.payload ++ rest))) =
        ((varuint_encode 0 ++ varuint_encode f.payload.length) ++ varuint_encode f.msg_type) ++
          (f.payload ++ rest) := by simp
    have hl : (((varuint_encode 0 ++ varuint_encode f.payload.length) ++
        varuint_encode f.msg_type)).length =
        (varuint_encode 0).length + (varuint_encode f.payload.length).length +
          (varuint_encode f.msg_type).length := by
      simp only [List.length_append]
    rw [hcomb, ← hl, List.drop_left]
  simp only [read_varuint_encode, hdrop1, hdrop2, hdrop3, ne_eq, not_true_eq_false,
    if_false, eq_self_iff_true, not_false_eq_true, ite_false, ite_true]
  by_cases hpl : f.payload.length = 0
  · have hpl0 : f.payload = [] := List.length_eq_zero.mp hpl
    simp [hpl0, frame_msg]
  · simp only [hpl, if_false, ite_false]
    have htot : (varuint_encode 0 ++ (varuint_encode f.payload.length ++
        (varuint_encode f.msg_type ++ (f.payload ++ rest)))).length =
        (varuint_encode 0).length + (varuint_encode f.payload.length).length +
          (varuint_encode f.msg_type).length + f.payload.length + rest.length := by
      simp
      omega
    have hnoshort : ¬ ((varuint_encode 0 ++ (varuint_encode f.payload.length ++
        (varuint_encode f.msg_type ++ (f.payload ++ rest)))).length <
        (varuint_encode 0).length + (varuint_encode f.payload.length).length +
          (varuint_encode f.msg_type).length + f.payload.length) := by
      rw [htot]
      omega
    rw [if_neg hnoshort]
    have htake : (f.payload ++ rest).take f.payload.length = f.payload := List.take_left _ _
    have hdrop4 : (varuint_encode 0 ++ (varuint_encode f.payload.length ++
        (varuint_encode f.msg_type ++ (f.payload ++ rest)))).drop
        ((varuint_encode 0).length + (varuint_encode f.payload.length).length +
          (varuint_encode f.msg_type).length + f.payload.length) = rest := by
      have hcomb : varuint_encode 0 ++ (varuint_encode f.payload.length ++
          (varuint_encode f.msg_type ++ (f.payload ++ rest))) =
          (((varuint_encode 0 ++ varuint_encode f.payload.length) ++
            varuint_encode f.msg_type) ++ f.payload) ++ rest := by simp
      have hl : ((((varuint_encode 0 ++ varuint_encode f.payload.length) ++
          varuint_encode f.msg_type) ++ f.payload)).length =
          (varuint_encode 0).length + (varuint_encode f.payload.length).length +
            (varuint_encode f.msg_type).length + f.payload.length := by
        simp only [List.length_append]
      rw [hcomb, ← hl, List.drop_left]
    rw [htake, hdrop4]
    simp [frame_msg]

theorem read_varuint_proper {n : Nat} {p t : List Nat}
    (hpt : p ++ t = varuint_encode n) (ht : t ≠ []) : read_varuint p = none :=
  read_varuint_from_proper n p t 0 0 0 hpt ht

/-- A strict prefix of a single encoded frame: the framing loop consumes
nothing and emits nothing ("need more data"). -/
theorem process_loop_proper (f : Frame) (p t : List Nat)
    (hpt : p ++ t = encode_frame f) (ht : t ≠ []) :
    process_loop p = ([], p) := by
  rw [process_loop_unfold]
  by_cases hsmall : p.length < 3
  · rw [if_pos hsmall]
  · rw [if_neg hsmall]
    -- p is nonempty and starts with the 0x00 preamble byte
    match p, hpt with
    | [], hpt => simp at hsmall
    | a :: q, hpt =>
      rw [encode_frame] at hpt
      simp only [List.cons_append, List.cons.injEq] at hpt
      obtain ⟨ha, hq⟩ := hpt
      subst ha
      have hpre : read_varuint (0 :: q) = some (0, 1) := by
        simp [read_varuint, read_varuint_from]
      rw [hpre]
      simp only [ne_eq, not_true_eq_false, if_false, eq_self_iff_true,
        not_false_eq_true, ite_false, ite_true]
      have hdropq : (0 :: q).drop 1 = q := rfl
      rw [hdropq]
      -- compare q with the length varint
      by_cases hql : q.length < (varuint_encode f.payload.length).length
      · -- q is a strict prefix of the length varint: undecodable
        obtain ⟨m, hm1, hm2⟩ := append_eq_append_split q
          (varuint_encode f.payload.length) t (varuint_encode f.msg_type ++ f.payload) hq
          (by omega)
        have hmne : m ≠ [] := by
          intro hme
          rw [hme, List.append_nil] at hm1
          rw [hm1] at hql
          omega
        rw [read_varuint_proper (p := q) (t := m) hm1.symm hmne]
      · -- q contains the whole length varint
        obtain ⟨m, hm1, hm2⟩ := append_eq_append_split
          (varuint_encode f.payload.length) q (varuint_encode f.msg_type ++ f.payload) t
          hq.symm (by omega)
        subst hm1
        rw [read_varuint_encode]
        simp only []
        have hdropm : (varuint_encode f.payload.length ++ m).drop
            ((varuint_encode f.payload.length).length) = m := List.drop_left _ _
        -- the loop position after the length varint: 1 + |e1|
        have hdropm2 : (0 :: (varuint_encode f.payload.length ++ m)).drop
            (1 + (varuint_encode f.payload.length).length) = m := by
          have : (0 :: (varuint_encode f.payload.length ++ m)).drop
              (1 + (varuint_encode f.payload.length).length) =
              (varuint_encode f.payload.length ++ m).drop
                ((varuint_encode f.payload.length).length) := by
            simp [List.drop_succ_cons, Nat.add_comm]
          rw [this, hdropm]
        rw [hdropm2]
        -- compare m with the type varint
        by_cases hml : m.length < (varuint_encode f.msg_type).length
        · obtain ⟨w, hw1, hw2⟩ := append_eq_append_split m
            (varuint_encode f.msg_type) t f.payload hm2.symm (by omega)
          have hwne : w ≠ [] := by
            intro hwe
            rw [hwe, List.append_nil] at hw1
            rw [hw1] at hml
            omega
          rw [read_varuint_proper (p := m) (t := w) hw1.symm hwne]
        · obtain ⟨w, hw1, hw2⟩ := append_eq_append_split
            (varuint_encode f.msg_type) m f.payload t hm2 (by omega)
          subst hw1
          rw [read_varuint_encode]
          simp only []
          -- w is a strict prefix of the payload
          have hwlt : w.length < f.payload.length := by
            have := congrArg List.length hw2
            simp [List.length_append] at this
            have htne : 0 < t.length := by
              cases t with
              | nil => exact absurd rfl ht
              | cons x xs => simp
            omega
          have hplpos : f.payload.length ≠ 0 := by omega
          rw [if_neg hplpos]
          have hlenp : (0 :: (varuint_encode f.payload.length ++
              (varuint_encode f.msg_type ++ w))).length =
              1 + (varuint_encode f.payload.length).length +
                (varuint_encode f.msg_type).length + w.length := by
            simp [List.length_append]
            omega
          have hshort : (0 :: (varuint_encode f.payload.length ++
              (varuint_encode f.msg_type ++ w))).length <
              1 + (varuint_encode f.payload.length).length +
                (varuint_encode f.msg_type).length + f.payload.length := by
            rw [hlenp]
            omega
          rw [if_pos hshort]

theorem encode_frames_append (fs gs : List Frame) :
    encode_frames (fs ++ gs) = encode_frames fs ++ encode_frames gs := by
  induction fs with
  | nil => simp [encode_frames]
  | cons f fs ih => simp [encode_frames, ih]

theorem encode_frame_ne_nil (f : Frame) : encode_frame f ≠ [] := by
  rw [encode_frame]
  simp

/-- Running the framing loop on any prefix of a well-formed frame stream
peels off exactly the fully buffered frames and leaves a strict prefix of the
next frame (or nothing). -/
theorem process_loop_prefix_frames : ∀ (fs : List Frame) (p t : List Nat),
    p ++ t = encode_frames fs →
    ∃ fs₁ fs₂ r, fs = fs₁ ++ fs₂ ∧ p = encode_frames fs₁ ++ r ∧
      process_loop p = (fs₁.map frame_msg, r) ∧
      ((fs₂ = [] ∧ r = []) ∨
        (∃ g gs u, fs₂ = g :: gs ∧ r ++ u = encode_frame g ∧ u ≠ [])) := by
  intro fs
  induction fs with
  | nil =>
    intro p t hpt
    have hp : p = [] := by
      have h := congrArg List.length hpt
      simp [encode_frames] at h
      exact h.1
    refine ⟨[], [], [], rfl, by simp [encode_frames, hp], ?_, Or.inl ⟨rfl, rfl⟩⟩
    rw [hp]
    have : process_loop [] = ([], []) := by
      rw [process_loop_unfold]
      simp
    simp [this]
  | cons f fs ih =>
    intro p t hpt
    rw [encode_frames] at hpt
    by_cases hlen : p.length < (encode_frame f).length
    · -- p is a strict prefix of the first frame
      obtain ⟨m, hm1, hm2⟩ := append_eq_append_split p (encode_frame f) t
        (encode_frames fs) hpt (by omega)
      have hmne : m ≠ [] := by
        intro hme
        rw [hme, List.append_nil] at hm1
        rw [hm1] at hlen
        omega
      refine ⟨[], f :: fs, p, rfl, by simp [encode_frames], ?_,
        Or.inr ⟨f, fs, m, rfl, hm1.symm, hmne⟩⟩
      rw [process_loop_proper f p m hm1.symm hmne]
      simp
    · -- p contains the whole first frame
      obtain ⟨m, hm1, hm2⟩ := append_eq_append_split (encode_frame f) p
        (encode_frames fs) t hpt.symm (by omega)
      subst hm1
      obtain ⟨fs₁, fs₂, r, hfs, hm, hproc, hquiet⟩ := ih m t hm2.symm
      refine ⟨f :: fs₁, fs₂, r, by simp [hfs], ?_, ?_, hquiet⟩
      · rw [encode_frames, hm]
        simp
      · rw [process_loop_encode_frame, hproc]
        simp

/-- Feeding chunks into `data_received` starting from a quiescent buffer (a
strict prefix of the next frame, or empty at the end of the stream): all
frames whose bytes arrive are decoded, in order. -/
theorem feed_chunks_spec : ∀ (chunks : List (List Nat)) (b : List Nat) (fs : List Frame),
    ((fs = [] ∧ b = []) ∨
      (∃ g gs u, fs = g :: gs ∧ b ++ u = encode_frame g ∧ u ≠ [])) →
    b ++ chunks.flatten = encode_frames fs →
    feed_chunks b chunks = (fs.map frame_msg, []) := by
  intro chunks
  induction chunks with
  | nil =>
    intro b fs hq hflat
    simp only [List.flatten_nil, List.append_nil] at hflat
    rcases hq with ⟨hfs, hb⟩ | ⟨g, gs, u, hfs, hbu, hu⟩
    · subst hfs hb
      simp [feed_chunks]
    · exfalso
      subst hfs
      rw [encode_frames] at hflat
      have h1 := congrArg List.length hbu
      have h2 := congrArg List.length hflat
      simp [List.length_append] at h1 h2
      have hupos : 0 < u.length := by
        cases u with
        | nil => exact absurd rfl hu
        | cons x xs => simp
      omega
  | cons c cs ih =>
    intro b fs hq hflat
    simp only [List.flatten_cons] at hflat
    rw [← List.append_assoc] at hflat
    obtain ⟨fs₁, fs₂, r, hfs, hm, hproc, hquiet⟩ :=
      process_loop_prefix_frames fs (b ++ c) cs.flatten hflat
    have hrest : r ++ cs.flatten = encode_frames fs₂ := by
      have h1 : (b ++ c) ++ cs.flatten = encode_frames fs := hflat
    -- encode_frames fs = encode_frames fs₁ ++ encode_frames fs₂
      rw [hfs, encode_frames_append] at h1
      rw [hm] at h1
      rw [List.append_assoc] at h1
      exact List.append_cancel_left h1
    have hq2 : ((fs₂ = [] ∧ r = []) ∨
        (∃ g gs u, fs₂ = g :: gs ∧ r ++ u = encode_frame g ∧ u ≠ [])) := by
      rcases hquiet with ⟨h1, h2⟩ | h
      · exact Or.inl ⟨h1, h2⟩
      · exact Or.inr h
    have := ih r fs₂ hq2 hrest
    rw [feed_chunks]
    simp only [hproc, this]
    rw [hfs]
    simp

/-- Claim C3, corrected: on a buffer whose first decoded varint is nonzero or
undecodable (or whose length/type varint is undecodable), `data_received`
logs the error and returns with the buffer unconsumed and no message
dispatched, and it never closes the transport: the connection is NOT torn
down, and the error is not process-fatal. -/
theorem C3_framing_error_no_teardown :
    (∀ (c : Conn) (data : List Nat),
      ((data_received c data).1).is_open = c.is_open) ∧
    (∀ buf : List Nat, framing_error buf → process_loop buf = ([], buf)) := by
  constructor
  · intro c data
    rfl
  · intro buf herr
    obtain ⟨h3, herr⟩ := herr
    rw [process_loop_unfold]
    rw [if_neg (by omega : ¬ (buf.length < 3))]
    revert herr
    match h1p : read_varuint buf with
    | none => intro _; rfl
    | some (preamble, c1) =>
      intro herr
      simp only [] at herr
      by_cases hpre : preamble ≠ 0
      · simp [hpre]
      · have hpre0 : preamble = 0 := not_not.mp hpre
        rcases herr with h | herr
        · exact absurd h hpre
        · revert herr
          simp only [hpre0, ne_eq, not_true_eq_false, if_false, eq_self_iff_true,
            not_false_eq_true, ite_false, ite_true]
          match h2p : read_varuint (buf.drop c1) with
          | none => intro _; rfl
          | some (len, c2) =>
            intro herr
            simp only [] at herr
            simp only [herr]

/-- Witness for C3: a concrete three-byte buffer with preamble `0x01` is a
framing error; the loop consumes nothing, and `data_received` on a live
connection leaves it open. -/
theorem C3_witness :
    ((data_received ⟨[4, 5], true⟩ [1, 0, 0]).1).is_open = true ∧
      process_loop [1, 0, 0] = ([], [1, 0, 0]) := by
  constructor
  · exact (C3_framing_error_no_teardown.1 ⟨[4, 5], true⟩ [1, 0, 0]).trans rfl
  · exact C3_framing_error_no_teardown.2 [1, 0, 0]
      ⟨by norm_num, Or.inl (by norm_num)⟩

/-- Counterexample for C3 as stated: feeding the malformed buffer
`[0x01, 0x00, 0x00]` (preamble 1) to a fresh live connection leaves the
transport open and the buffer unconsumed — the connection is logged but not
torn down, contradicting "the transport is closed and the session becomes
dead". -/
theorem C3_counterexample :
    data_received ⟨[], true⟩ [1, 0, 0] = (⟨[1, 0, 0], true⟩, []) := by
  rfl

/-- Claim C4, confirmed: partial-delivery invariance.  Feeding the encoded
bytes of any frame sequence to `data_received` in arbitrary chunks yields
exactly the frames' `(msg_type, payload)` pairs, in order, with an empty
buffer left — in particular the same result as feeding all bytes at once
(the one-chunk partition); and on any strict prefix of a frame the loop
consumes nothing and emits nothing, so the pending bytes are re-examined
when more data arrives. -/
theorem C4_partial_delivery :
    (∀ (fs : List Frame) (chunks : List (List Nat)),
       chunks.flatten = encode_frames fs →
       feed_chunks [] chunks = (fs.map frame_msg, [])) ∧
    (∀ (f : Frame) (p u : List Nat), p ++ u = encode_frame f → u ≠ [] →
       process_loop p = ([], p)) := by
  constructor
  · intro fs chunks hflat
    apply feed_chunks_spec chunks [] fs
    · match fs with
      | [] => exact Or.inl ⟨rfl, rfl⟩
      | g :: gs =>
        exact Or.inr ⟨g, gs, encode_frame g, rfl, by simp, encode_frame_ne_nil g⟩
    · simpa using hflat
  · exact fun f p u h1 h2 => process_loop_proper f p u h1 h2

/-- Witness for C4: the two frames `(type 1, payload [5])` and
`(type 2, empty)` encode to `[0,1,1,5] ++ [0,0,2]`; fed one byte at a time,
both frames are decoded in order, and the strict prefix `[0,1,1]` of the
first frame is left untouched by the loop. -/
theorem C4_witness :
    feed_chunks [] [[0], [1], [1], [5], [0], [0], [2]] =
      ([(1, [5]), (2, [])], []) ∧
      process_loop [0, 1, 1] = ([], [0, 1, 1]) := by
  have henc1 : varuint_encode 1 = [1] := by
    rw [varuint_encode]
    norm_num
  have henc2 : varuint_encode 2 = [2] := by
    rw [varuint_encode]
    norm_num
  constructor
  · have h := C4_partial_delivery.1 [⟨1, [5]⟩, ⟨2, []⟩]
      [[0], [1], [1], [5], [0], [0], [2]]
      (by simp [encode_frames, encode_frame, varuint_encode_zero, henc1, henc2])
    simpa [frame_msg] using h
  · exact C4_partial_delivery.2 ⟨1, [5]⟩ [0, 1, 1] [5]
      (by simp [encode_frame, varuint_encode_zero, henc1]) (by simp)

/-! ## Field-preservation lemmas for the satellite methods -/

theorem play_tts_fields (s : SatState) :
    ((play_tts s).1).is_streaming_audio = s.is_streaming_audio ∧
    ((play_tts s).1).pipeline_active = s.pipeline_active ∧
    ((play_tts s).1).muted = s.muted ∧
    ((play_tts s).1).timer_finished = s.timer_finished ∧
    ((play_tts s).1).continue_conversation = s.continue_conversation := by
  rcases htu : s.tts_url with - | u
  · simp [play_tts, htu]
  · by_cases hp : s.tts_played <;> simp [play_tts, htu, hp]

theorem play_tts_stop_active (s : SatState) (h : s.stop_word_active = true) :
    ((play_tts s).1).stop_word_active = true := by
  rcases htu : s.tts_url with - | u <;> simp only [play_tts, htu]
  · exact h
  · split_ifs
    · exact h
    · rfl

/-- Claim C5, confirmed: case analysis of `wakeup`.  Idle and unmuted (no
timer ringing): exactly one pipeline-start request with the detected phrase,
a duck, the wake cue, and the streaming/pipeline flags set.  Pipeline already
active (timer not ringing): nothing sent, state unchanged.  Timer ringing:
the chime is stopped and nothing is sent. -/
theorem C5_wakeup_cases (s : SatState) (phrase : String) :
    (s.timer_finished = false → s.muted = false → s.pipeline_active = false →
      wakeup phrase s =
        ({ s with is_streaming_audio := true, pipeline_active := true },
         [Action.send (OutMsg.voiceAssistantRequest true phrase),
          Action.duck, Action.tts_play Sound.wakeup_sound])) ∧
    (s.timer_finished = false → s.pipeline_active = true →
      wakeup phrase s = (s, [])) ∧
    (s.timer_finished = true →
      wakeup phrase s = ({ s with timer_finished := false }, [Action.tts_stop])) := by
  refine ⟨?_, ?_, ?_⟩
  · intro ht hm hp
    simp [wakeup, ht, hm, hp]
  · intro ht hp
    rcases hm : s.muted with - | -
    · simp [wakeup, ht, hm, hp]
    · simp [wakeup, ht, hm]
  · intro ht
    simp [wakeup, ht]

/-- Witness for C5: all three cases of `wakeup` at concrete states. -/
theorem C5_witness :
    wakeup "okay nabu" init_state =
      ({ init_state with is_streaming_audio := true, pipeline_active := true },
       [Action.send (OutMsg.voiceAssistantRequest true "okay nabu"),
        Action.duck, Action.tts_play Sound.wakeup_sound]) ∧
    wakeup "okay nabu" { init_state with pipeline_active := true } =
      ({ init_state with pipeline_active := true }, []) ∧
    wakeup "okay nabu" { init_state with timer_finished := true } =
      (init_state, [Action.tts_stop]) := by
  refine ⟨?_, ?_, ?_⟩
  · exact (C5_wakeup_cases init_state "okay nabu").1 rfl rfl rfl
  · exact (C5_wakeup_cases { init_state with pipeline_active := true } "okay nabu").2.1 rfl rfl
  · exact (C5_wakeup_cases { init_state with timer_finished := true } "okay nabu").2.2 rfl

/-- Claim C8, confirmed: a pipeline run-end with the TTS not yet played
immediately performs the `_tts_finished` transition; TTS completion without
continuation sends exactly one `AnnounceFinished`, unducks, clears
`_pipeline_active` and sends no pipeline-start; with continuation it sends a
new pipeline-start and resumes streaming. -/
theorem C8_tts_terminal (s : SatState) :
    (s.tts_played = false →
      handle_voice_event VoiceEvent.run_end s =
        ({ (tts_finished { s with is_streaming_audio := false }).1 with
             tts_played := false },
         (tts_finished { s with is_streaming_audio := false }).2)) ∧
    (s.continue_conversation = false →
      tts_finished s =
        ({ s with stop_word_active := false, continue_conversation := false,
                  pipeline_active := false },
         [Action.send OutMsg.voiceAssistantAnnounceFinished, Action.unduck])) ∧
    (s.continue_conversation = true →
      tts_finished s =
        ({ s with stop_word_active := false, continue_conversation := false,
                  is_streaming_audio := true, pipeline_active := true },
         [Action.send OutMsg.voiceAssistantAnnounceFinished,
          Action.send (OutMsg.voiceAssistantRequest true "")])) := by
  refine ⟨?_, ?_, ?_⟩
  · intro hp
    simp [handle_voice_event, hp]
  · intro hc
    simp [tts_finished, hc]
  · intro hc
    simp [tts_finished, hc]

/-- Witness for C8: the three cases at concrete states. -/
theorem C8_witness :
    handle_voice_event VoiceEvent.run_end
        { init_state with tts_url := some "http://x", pipeline_active := true } =
      ({ init_state with tts_url := some "http://x", pipeline_active := false },
       [Action.send OutMsg.voiceAssistantAnnounceFinished, Action.unduck]) ∧
    tts_finished { init_state with continue_conversation := true } =
      ({ init_state with is_streaming_audio := true, pipeline_active := true },
       [Action.send OutMsg.voiceAssistantAnnounceFinished,
        Action.send (OutMsg.voiceAssistantRequest true "")]) := by
  constructor
  · have h := (C8_tts_terminal
      { init_state with tts_url := some "http://x", pipeline_active := true }).1 rfl
    rw [h]
    rfl
  · have h := (C8_tts_terminal { init_state with continue_conversation := true }).2.2 rfl
    rw [h]
    rfl

/-- Claim C2, corrected (amended form): the invariant "streaming implies
pipeline active" holds initially and is preserved by every satellite call,
provided `stop` and the TTS-completion callback `_tts_finished` are only
invoked while `_is_streaming_audio` is false (as on the run-end path, which
clears the streaming flag before calling `_tts_finished`). -/
theorem C2_streaming_requires_pipeline :
    (init_state.is_streaming_audio = true → init_state.pipeline_active = true) ∧
    (∀ (s : SatState) (e : Ev),
      (s.is_streaming_audio = true → s.pipeline_active = true) →
      ((e = Ev.stop_event ∨ e = Ev.tts_finished_event) → s.is_streaming_audio = false) →
      (((step s e).1).is_streaming_audio = true → ((step s e).1).pipeline_active = true)) := by
  constructor
  · intro h
    exact absurd h (by simp [init_state])
  · intro s e hinv hse
    cases e with
    | wakeup p =>
      simp only [step, wakeup]
      split_ifs <;> simp_all
    | voice ve =>
      cases ve with
      | run_start url => simp [step, handle_voice_event]
      | intent_start =>
        simp only [step, handle_voice_event]
        split_ifs <;> simp_all
      | stt_vad_end => simp [step, handle_voice_event]
      | stt_end => simp [step, handle_voice_event]
      | intent_progress b =>
        simp only [step, handle_voice_event]
        split_ifs
        · have h := play_tts_fields s
          rw [h.1, h.2.1]
          exact hinv
        · exact hinv
      | intent_end c =>
        simp only [step, handle_voice_event]
        split_ifs <;> simp_all
      | tts_end url =>
        simp only [step, handle_voice_event]
        have h := play_tts_fields { s with tts_url := url }
        rw [h.1, h.2.1]
        exact hinv
      | run_end =>
        simp only [step, handle_voice_event]
        split_ifs with hp
        · simp
        · simp only [tts_finished]
          split_ifs <;> simp
    | announce pre m sc => simp only [step, handle_announce]; exact hinv
    | timer_finished_event =>
      simp only [step, handle_timer_finished]
      split_ifs <;> exact hinv
    | stop_event =>
      have hstream : s.is_streaming_audio = false := hse (Or.inl rfl)
      simp only [step, stop]
      split_ifs <;> simp [tts_finished, hstream]
    | tts_finished_event =>
      have hstream : s.is_streaming_audio = false := hse (Or.inr rfl)
      simp only [step, tts_finished]
      split_ifs <;> simp [hstream]
    | set_muted b =>
      simp only [step, set_muted]
      split_ifs <;> simp_all
    | connection_lost => simp [step, connection_lost]

/-- Witness for C2: the run-end transition from a streaming, pipeline-active
state keeps the invariant. -/
theorem C2_witness :
    ((step { init_state with is_streaming_audio := true, pipeline_active := true }
        (Ev.voice VoiceEvent.run_end)).1).is_streaming_audio = true →
    ((step { init_state with is_streaming_audio := true, pipeline_active := true }
        (Ev.voice VoiceEvent.run_end)).1).pipeline_active = true :=
  C2_streaming_requires_pipeline.2
    { init_state with is_streaming_audio := true, pipeline_active := true }
    (Ev.voice VoiceEvent.run_end) (fun _ => rfl) (by decide)

/-- Counterexample for C2 as stated: after the call sequence
`wakeup; _tts_finished` (a TTS playback completing without continuation
while the microphone is still streaming), `_is_streaming_audio` is still
true although `_tts_finished` has just set `_pipeline_active` to false —
so not every operation that clears `_pipeline_active` leaves
`_is_streaming_audio` false. -/
theorem C2_counterexample :
    ((run init_state [Ev.wakeup "okay nabu", Ev.tts_finished_event]).1).is_streaming_audio
        = true ∧
    ((run init_state [Ev.wakeup "okay nabu", Ev.tts_finished_event]).1).pipeline_active
        = false :=
  ⟨rfl, rfl⟩

/-- The events other than `stop`, `_tts_finished`, `_set_muted(True)`,
`connection_lost` and a pipeline run-end never clear the stop-word gate. -/
theorem step_preserves_stop_active (s : SatState) (e : Ev)
    (h : s.stop_word_active = true) (hne : ¬ deactivating e) :
    ((step s e).1).stop_word_active = true := by
  cases e with
  | wakeup p =>
    simp only [step, wakeup]
    split_ifs <;> simp_all
  | voice ve =>
    cases ve with
    | run_start url => simp [step, handle_voice_event, h]
    | intent_start =>
      simp only [step, handle_voice_event]
      split_ifs <;> simp_all
    | stt_vad_end => simp [step, handle_voice_event, h]
    | stt_end => simp [step, handle_voice_event, h]
    | intent_progress b =>
      simp only [step, handle_voice_event]
      split_ifs
      · exact play_tts_stop_active s h
      · exact h
    | intent_end c =>
      simp only [step, handle_voice_event]
      split_ifs <;> simp_all
    | tts_end url =>
      simp only [step, handle_voice_event]
      exact play_tts_stop_active { s with tts_url := url } h
    | run_end => exact absurd (by simp [deactivating]) hne
  | announce pre m sc => simp [step, handle_announce]
  | timer_finished_event =>
    simp only [step, handle_timer_finished]
    split_ifs <;> simp_all
  | stop_event => exact absurd (by simp [deactivating]) hne
  | tts_finished_event => exact absurd (by simp [deactivating]) hne
  | set_muted b =>
    cases b with
    | false => simp [step, set_muted, h]
    | true => exact absurd (by simp [deactivating]) hne
  | connection_lost => exact absurd (by simp [deactivating]) hne

theorem run_preserves_stop_active (s : SatState) (evs : List Ev)
    (h : s.stop_word_active = true) (hne : ∀ e ∈ evs, ¬ deactivating e) :
    ((run s evs).1).stop_word_active = true := by
  induction evs generalizing s with
  | nil => exact h
  | cons e evs ih =>
    simp only [run]
    exact ih _ (step_preserves_stop_active s e h (hne e (by simp)))
      (fun x hx => hne x (by simp [hx]))

/-- Claim C1, corrected (amended form): a wake detection does not activate
the stop-word gate — `wakeup` leaves it unchanged.  The gate is set true by
an announce request; by a timer-finished event when the chime is not
already ringing; by the start of TTS playback through `play_tts` — a
TTS-end event, or an intent-progress event with the early-streaming flag,
when a TTS URL is pending and not yet played; and by an intent-start event
when the thinking sound is enabled and configured.  Once active, the gate
stays active across every call other than `stop`, `_tts_finished`,
`_set_muted(True)`, `connection_lost` and a pipeline run-end, and it is
false immediately after `_tts_finished` or `stop`. -/
theorem C1_stop_word_gating (s : SatState) :
    (∀ (pre : Option String) (m : String) (sc : Bool),
      ((step s (Ev.announce pre m sc)).1).stop_word_active = true) ∧
    (s.timer_finished = false →
      ((step s Ev.timer_finished_event).1).stop_word_active = true) ∧
    (∀ u : String, s.tts_played = false →
      ((step s (Ev.voice (VoiceEvent.tts_end (some u)))).1).stop_word_active = true) ∧
    (s.thinking_sound_enabled = true → s.has_processing_sound = true →
      ((step s (Ev.voice VoiceEvent.intent_start)).1).stop_word_active = true) ∧
    (∀ u : String, s.tts_url = some u → s.tts_played = false →
      ((step s (Ev.voice (VoiceEvent.intent_progress true))).1).stop_word_active
        = true) ∧
    (∀ p : String, ((step s (Ev.wakeup p)).1).stop_word_active = s.stop_word_active) ∧
    (∀ evs : List Ev, s.stop_word_active = true → (∀ e ∈ evs, ¬ deactivating e) →
      ((run s evs).1).stop_word_active = true) ∧
    (((step s Ev.tts_finished_event).1).stop_word_active = false ∧
      ((step s Ev.stop_event).1).stop_word_active = false) := by
  refine ⟨?_, ?_, ?_, ?_, ?_, ?_, ?_, ?_, ?_⟩
  · intro pre m sc
    simp [step, handle_announce]
  · intro ht
    simp [step, handle_timer_finished, ht]
  · intro u hp
    simp [step, handle_voice_event, play_tts, hp]
  · intro hth hps
    simp [step, handle_voice_event, hth, hps]
  · intro u hu hp
    simp [step, handle_voice_event, play_tts, hu, hp]
  · intro p
    simp only [step, wakeup]
    split_ifs <;> rfl
  · intro evs h hne
    exact run_preserves_stop_active s evs h hne
  · simp only [step, tts_finished]
    split_ifs <;> rfl
  · simp only [step, stop]
    split_ifs
    · rfl
    · simp [tts_finished]

/-- Witness for C1: the gate survives an intent-end and a wake detection; a
timer-finished event, the thinking cue, and both `play_tts` entry points
(TTS-end and early-streaming intent-progress) activate it. -/
theorem C1_witness :
    ((run { init_state with stop_word_active := true }
        [Ev.voice (VoiceEvent.intent_end true), Ev.wakeup "hey"]).1).stop_word_active
        = true ∧
    ((step init_state Ev.timer_finished_event).1).stop_word_active = true ∧
    ((step { init_state with thinking_sound_enabled := true }
        (Ev.voice VoiceEvent.intent_start)).1).stop_word_active = true ∧
    ((step { init_state with tts_url := some "http://x" }
        (Ev.voice (VoiceEvent.intent_progress true))).1).stop_word_active = true ∧
    ((step init_state
        (Ev.voice (VoiceEvent.tts_end (some "http://x")))).1).stop_word_active
        = true := by
  refine ⟨?_, ?_, ?_, ?_, ?_⟩
  · exact (C1_stop_word_gating
      { init_state with stop_word_active := true }).2.2.2.2.2.2.1
      [Ev.voice (VoiceEvent.intent_end true), Ev.wakeup "hey"] rfl (by decide)
  · exact (C1_stop_word_gating init_state).2.1 rfl
  · exact (C1_stop_word_gating
      { init_state with thinking_sound_enabled := true }).2.2.2.1 rfl rfl
  · exact (C1_stop_word_gating
      { init_state with tts_url := some "http://x" }).2.2.2.2.1 "http://x" rfl rfl
  · exact (C1_stop_word_gating init_state).2.2.1 "http://x" rfl

/-- Counterexample for C1 as stated: a wake detection from an idle, unmuted
state starts a pipeline run and plays the wake cue, yet the stop-word gate
is still false right after the trigger — `is_active` is not true "at every
instant from that trigger".  (The leading mute/unmute round trip pins the
gate to false first, so the refutation does not depend on the stop model's
unspecified initial flag.) -/
theorem C1_counterexample :
    run init_state [Ev.set_muted true, Ev.set_muted false, Ev.wakeup "okay nabu"] =
      ({ init_state with is_streaming_audio := true, pipeline_active := true },
       [Action.tts_stop, Action.send (OutMsg.voiceAssistantRequest true "okay nabu"),
        Action.duck, Action.tts_play Sound.wakeup_sound]) ∧
    ((run init_state
        [Ev.set_muted true, Ev.set_muted false, Ev.wakeup "okay nabu"]).1).stop_word_active
        = false ∧
    ((run init_state
        [Ev.set_muted true, Ev.set_muted false, Ev.wakeup "okay nabu"]).1).pipeline_active
        = true :=
  ⟨rfl, rfl, rfl⟩

theorem wakeup_muted (p : String) (s : SatState) :
    ((wakeup p s).1).muted = s.muted := by
  simp only [wakeup]
  split_ifs <;> rfl

theorem tts_finished_muted (s : SatState) :
    ((tts_finished s).1).muted = s.muted := by
  simp only [tts_finished]
  split_ifs <;> rfl

theorem stop_muted (s : SatState) : ((stop s).1).muted = s.muted := by
  simp only [stop]
  split_ifs
  · rfl
  · exact tts_finished_muted _

theorem wake_words_loop_muted (r now : ℚ) (ms : List (Bool × String))
    (s : SatState) (last : Option ℚ) (h : s.muted = true) :
    wake_words_loop r now ms s last = (s, last, [], 0) := by
  induction ms with
  | nil => rfl
  | cons m ms ih =>
    have hc : (m.1 && !s.muted) = false := by
      rw [h]
      simp
    simp only [wake_words_loop, hc, Bool.false_eq_true, if_false, ite_false]
    exact ih

theorem gate_open_iff (r : ℚ) (last : Option ℚ) (now : ℚ) :
    gate_open r last now = true ↔ gate r last now := by
  cases last with
  | none => simp [gate_open, gate]
  | some t0 => simp [gate_open, gate]

theorem wake_words_loop_muted_eq (r now : ℚ) (ms : List (Bool × String)) :
    ∀ (s : SatState) (last : Option ℚ),
    ((wake_words_loop r now ms s last).1).muted = s.muted := by
  induction ms with
  | nil => intro s last; rfl
  | cons m ms ih =>
    intro s last
    simp only [wake_words_loop]
    split_ifs with hg hgo
    · rw [ih, wakeup_muted]
    · exact ih s last
    · exact ih s last

theorem wake_words_loop_closed (r now : ℚ) (ms : List (Bool × String))
    (s : SatState) (t0 : ℚ) (h : ¬ (now - t0 > r)) :
    wake_words_loop r now ms s (some t0) = (s, some t0, [], 0) := by
  have hgo : gate_open r (some t0) now = false := by
    simp [gate_open, h]
  induction ms with
  | nil => rfl
  | cons m ms ih =>
    simp only [wake_words_loop, hgo, Bool.false_eq_true, if_false, ite_false]
    split_ifs with hg
    · exact ih
    · exact ih

theorem wake_words_loop_nofire (r now : ℚ) (ms : List (Bool × String))
    (s : SatState) (last : Option ℚ) (h : ∀ m ∈ ms, m.1 = false) :
    wake_words_loop r now ms s last = (s, last, [], 0) := by
  induction ms with
  | nil => rfl
  | cons m ms ih =>
    have hm : m.1 = false := h m (by simp)
    simp only [wake_words_loop, hm, Bool.false_and, Bool.false_eq_true,
      if_false, ite_false]
    exact ih (fun x hx => h x (by simp [hx]))

theorem wake_words_loop_last (r now : ℚ) (ms : List (Bool × String)) :
    ∀ (s : SatState) (last : Option ℚ),
    (0 < (wake_words_loop r now ms s last).2.2.2 →
      (wake_words_loop r now ms s last).2.1 = some now) ∧
    ((wake_words_loop r now ms s last).2.2.2 = 0 →
      wake_words_loop r now ms s last = (s, last, [], 0)) := by
  induction ms with
  | nil =>
    intro s last
    exact ⟨fun h => absurd h (by simp [wake_words_loop]), fun _ => rfl⟩
  | cons m ms ih =>
    intro s last
    simp only [wake_words_loop]
    split_ifs with hg hgo
    · constructor
      · intro _
        rcases Nat.eq_zero_or_pos
            (wake_words_loop r now ms (wakeup m.2 s).1 (some now)).2.2.2 with h0 | hpos
        · rw [(ih (wakeup m.2 s).1 (some now)).2 h0]
        · exact (ih (wakeup m.2 s).1 (some now)).1 hpos
      · intro h
        exact absurd h (Nat.succ_ne_zero _)
    · exact ih s last
    · exact ih s last

/-- An activation is forwarded from a chunk on which some model fired iff
the satellite is not muted and the refractory gate is open. -/
theorem wake_words_loop_count_pos (r now : ℚ) (ms : List (Bool × String)) :
    ∀ (s : SatState) (last : Option ℚ), (∃ m ∈ ms, m.1 = true) →
    (0 < (wake_words_loop r now ms s last).2.2.2 ↔
      (s.muted = false ∧ gate r last now)) := by
  induction ms with
  | nil =>
    intro s last hfire
    simp at hfire
  | cons m ms ih =>
    intro s last hfire
    have hmum := wake_words_loop_muted r now
    simp only [wake_words_loop]
    by_cases hmut : s.muted = true
    · rw [if_neg (by simp [hmut])]
      rw [wake_words_loop_muted r now ms s last hmut]
      simp [hmut]
    · have hmut' : s.muted = false := by
        cases h : s.muted
        · rfl
        · exact absurd h hmut
      by_cases hm1 : m.1 = true
      · rw [if_pos (by simp [hm1, hmut'])]
        by_cases hgo : gate_open r last now = true
        · rw [if_pos hgo]
          constructor
          · intro _
            exact ⟨hmut', (gate_open_iff r last now).mp hgo⟩
          · intro _
            exact Nat.succ_pos _
        · rw [if_neg hgo]
          constructor
          · intro hpos
            rcases last with - | t0
            · exact absurd (by simp [gate_open] : gate_open r none now = true) hgo
            · have ht : ¬ (now - t0 > r) := by
                simpa [gate_open] using hgo
              rw [wake_words_loop_closed r now ms s t0 ht] at hpos
              exact absurd hpos (lt_irrefl 0)
          · rintro ⟨-, hgg⟩
            exact absurd ((gate_open_iff r last now).mpr hgg) hgo
      · have hm1' : m.1 = false := by
          cases h : m.1
          · rfl
          · exact absurd h hm1
        rw [if_neg (by simp [hm1'])]
        have hfire' : ∃ x ∈ ms, x.1 = true := by
          rcases hfire with ⟨x, hx, hx1⟩
          rcases List.mem_cons.mp hx with hxm | hxms
          · rw [hxm] at hx1
            exact absurd hx1 (by simp [hm1'])
          · exact ⟨x, hxms, hx1⟩
        exact ih s last hfire'

/-- With a nonnegative refractory interval, at most one activation per chunk
is forwarded: a forward sets the shared timestamp to `now`, closing the gate
for the remaining models of the same chunk. -/
theorem wake_words_loop_count_le_one (r now : ℚ) (hr : 0 ≤ r)
    (ms : List (Bool × String)) : ∀ (s : SatState) (last : Option ℚ),
    (wake_words_loop r now ms s last).2.2.2 ≤ 1 := by
  have hclosed : ¬ (now - now > r) := by
    rw [sub_self]
    exact not_lt.mpr hr
  induction ms with
  | nil =>
    intro s last
    exact Nat.zero_le 1
  | cons m ms ih =>
    intro s last
    simp only [wake_words_loop]
    split_ifs with hg hgo
    · rw [wake_words_loop_closed r now ms _ now hclosed]
    · exact ih s last
    · exact ih s last

/-- Claim C7, confirmed: while the satellite is muted, one whole iteration
of the `process_audio` loop is a no-op: `handle_audio` sends no
`VoiceAssistantAudio`, no `wakeup` call is forwarded (count 0), the
stop-word branch does not call `stop`, no action at all is emitted and the
state and refractory timestamp are unchanged — even when the detectors
fire on the chunk. -/
theorem C7_mute_invariant (r : ℚ) (s : SatState) (last : Option ℚ)
    (c : AudioChunk) (h : s.muted = true) :
    handle_audio s c.data = [] ∧
      process_audio_chunk r s last c = (s, last, [], 0) := by
  have ha : handle_audio s c.data = [] := by
    simp [handle_audio, h]
  refine ⟨ha, ?_⟩
  simp only [process_audio_chunk, ha,
    wake_words_loop_muted r c.time c.wake_fired s last h]
  rw [if_neg (by simp [h])]
  simp

/-- Witness for C7: a muted but streaming satellite state and a chunk on
which both a wake model and the stop model fire. -/
theorem C7_witness :
    handle_audio { init_state with muted := true, is_streaming_audio := true }
        [1, 2] = [] ∧
      process_audio_chunk 2 { init_state with muted := true, is_streaming_audio := true }
        none ⟨0, [(true, "okay nabu")], true, [1, 2]⟩ =
        ({ init_state with muted := true, is_streaming_audio := true }, none, [], 0) :=
  C7_mute_invariant 2 { init_state with muted := true, is_streaming_audio := true }
    none ⟨0, [(true, "okay nabu")], true, [1, 2]⟩ rfl

/-- The observable facts about one chunk iteration needed for the refractory
law: mute is preserved, forwarding happens iff unmuted with an open gate,
the timestamp becomes the chunk time exactly on a forward, and with a
nonnegative interval at most one activation is forwarded per chunk. -/
theorem process_audio_chunk_spec (r : ℚ) (s : SatState) (last : Option ℚ)
    (c : AudioChunk) (hfire : ∃ m ∈ c.wake_fired, m.1 = true) :
    (((process_audio_chunk r s last c).1).muted = s.muted) ∧
    (0 < (process_audio_chunk r s last c).2.2.2 ↔
      (s.muted = false ∧ gate r last c.time)) ∧
    (0 < (process_audio_chunk r s last c).2.2.2 →
      (process_audio_chunk r s last c).2.1 = some c.time) ∧
    ((process_audio_chunk r s last c).2.2.2 = 0 →
      (process_audio_chunk r s last c).2.1 = last) ∧
    (0 ≤ r → (process_audio_chunk r s last c).2.2.2 ≤ 1) := by
  have hml := wake_words_loop_muted_eq r c.time c.wake_fired s last
  have hco := wake_words_loop_count_pos r c.time c.wake_fired s last hfire
  have hla := wake_words_loop_last r c.time c.wake_fired s last
  simp only [process_audio_chunk]
  split_ifs with hstop
  · refine ⟨?_, ?_, ?_, ?_, ?_⟩
    · rw [stop_muted, hml]
    · exact hco
    · intro hpos
      exact hla.1 hpos
    · intro h0
      rw [(hla.2 h0)]
    · intro hr
      exact wake_words_loop_count_le_one r c.time hr c.wake_fired s last
  · refine ⟨?_, ?_, ?_, ?_, ?_⟩
    · exact hml
    · exact hco
    · intro hpos
      exact hla.1 hpos
    · intro h0
      rw [(hla.2 h0)]
    · intro hr
      exact wake_words_loop_count_le_one r c.time hr c.wake_fired s last

theorem last_forwarded_all_zero : ∀ (cs : List AudioChunk) (ns : List Nat)
    (last : Option ℚ), (∀ (i : Nat) (hi : i < ns.length), ns[i] = 0) →
    last_forwarded last cs ns = last := by
  intro cs
  induction cs with
  | nil => intro ns last _; rfl
  | cons c cs ih =>
    intro ns last h
    match ns with
    | [] => rfl
    | n :: ns' =>
      have hn : n = 0 := h 0 (by simp)
      simp only [last_forwarded, hn, lt_irrefl, if_false, ite_false]
      exact ih ns' last (fun i hi => h (i + 1) (by simpa using Nat.succ_lt_succ hi))

theorem last_forwarded_of_last_pos : ∀ (cs : List AudioChunk) (ns : List Nat)
    (last : Option ℚ) (i : Nat) (hi : i < cs.length) (hn : i < ns.length),
    0 < ns[i] → (∀ (k : Nat) (hk : k < ns.length), i < k → ns[k] = 0) →
    last_forwarded last cs ns = some cs[i].time := by
  intro cs
  induction cs with
  | nil =>
    intro ns last i hi
    simp at hi
  | cons c cs ih =>
    intro ns last i hi hn hpos hzero
    match ns with
    | [] => simp at hn
    | n :: ns' =>
      match i with
      | 0 =>
        have hn0 : 0 < n := by simpa using hpos
        simp only [last_forwarded, hn0, if_true, ite_true, List.getElem_cons_zero]
        exact last_forwarded_all_zero cs ns' (some c.time)
          (fun k hk => by
            have := hzero (k + 1) (by simpa using Nat.succ_lt_succ hk) (Nat.succ_pos k)
            simpa using this)
      | i + 1 =>
        simp only [last_forwarded, List.getElem_cons_succ]
        exact ih ns' _ i (by simpa using hi) (by simpa using hn)
          (by simpa using hpos)
          (fun k hk hik => by
            have := hzero (k + 1) (by simpa using Nat.succ_lt_succ hk)
              (Nat.succ_lt_succ hik)
            simpa using this)

/-- The `process_audio` loop over a chunk list, described chunk by chunk:
per-chunk forward counts, the trace description of the shared refractory
timestamp, and mute preservation. -/
theorem process_audio_run_spec (r : ℚ) : ∀ (cs : List AudioChunk)
    (s : SatState) (last : Option ℚ),
    (∀ c ∈ cs, ∃ m ∈ c.wake_fired, m.1 = true) →
    ((process_audio_run r s last cs).2.2.2.length = cs.length) ∧
    (((process_audio_run r s last cs).1).muted = s.muted) ∧
    ((process_audio_run r s last cs).2.1 =
      last_forwarded last cs (process_audio_run r s last cs).2.2.2) ∧
    (∀ (i : Nat) (hi : i < cs.length)
        (hc : i < (process_audio_run r s last cs).2.2.2.length),
      (0 < (process_audio_run r s last cs).2.2.2[i] ↔
        (s.muted = false ∧
          gate r (last_forwarded last (cs.take i)
            ((process_audio_run r s last cs).2.2.2.take i)) cs[i].time))) ∧
    (0 ≤ r → ∀ (i : Nat) (hc : i < (process_audio_run r s last cs).2.2.2.length),
      (process_audio_run r s last cs).2.2.2[i] ≤ 1) := by
  intro cs
  induction cs with
  | nil =>
    intro s last _
    refine ⟨rfl, rfl, rfl, ?_, ?_⟩
    · intro i hi
      simp at hi
    · intro _ i hc
      simp [process_audio_run] at hc
  | cons c cs ih =>
    intro s last hfire
    have hcf : ∃ m ∈ c.wake_fired, m.1 = true := hfire c (by simp)
    have hrest : ∀ x ∈ cs, ∃ m ∈ x.wake_fired, m.1 = true :=
      fun x hx => hfire x (by simp [hx])
    obtain ⟨hcm, hciff, hcpos, hczero, hcle⟩ :=
      process_audio_chunk_spec r s last c hcf
    obtain ⟨ihlen, ihm, ihlast, ihiff, ihle⟩ :=
      ih (process_audio_chunk r s last c).1 (process_audio_chunk r s last c).2.1 hrest
    have hlast1 : (process_audio_chunk r s last c).2.1 =
        (if 0 < (process_audio_chunk r s last c).2.2.2
         then some c.time else last) := by
      rcases Nat.eq_zero_or_pos (process_audio_chunk r s last c).2.2.2 with h0 | hp
      · rw [hczero h0, if_neg (by omega)]
      · rw [hcpos hp, if_pos hp]
    refine ⟨?_, ?_, ?_, ?_, ?_⟩
    · simp only [process_audio_run, List.length_cons]
      rw [ihlen]
    · simp only [process_audio_run]
      rw [ihm, hcm]
    · simp only [process_audio_run, last_forwarded]
      rw [ihlast, ← hlast1]
    · intro i hi hc
      match i with
      | 0 =>
        simp only [process_audio_run, List.getElem_cons_zero, List.take_zero,
          last_forwarded]
        exact hciff
      | i + 1 =>
        simp only [process_audio_run, List.getElem_cons_succ,
          List.take_succ_cons, last_forwarded]
        rw [← hlast1]
        have := ihiff i (by simpa using hi)
          (by simp only [process_audio_run, List.length_cons] at hc; omega)
        rw [this, hcm]
    · intro hr i hc
      match i with
      | 0 =>
        simp only [process_audio_run, List.getElem_cons_zero]
        exact hcle hr
      | i + 1 =>
        simp only [process_audio_run, List.getElem_cons_succ]
        exact ihle hr i (by simp only [process_audio_run, List.length_cons] at hc; omega)

/-- Claim C6, confirmed: the refractory law.  For chunks on which some
active wake model always fires: an activation is forwarded (`wakeup`
called) on a chunk iff the satellite is not muted and either nothing was
forwarded before or the elapsed time since the last forwarded activation
strictly exceeds the refractory interval; the shared timestamp always
equals the time of the last forwarded chunk (it is updated only on a
forward); with a nonnegative interval (default 2.0 s) at most one `wakeup`
is made per chunk; and any two consecutive forwarded activations are
separated by strictly more than the refractory interval, regardless of the
chunk rate. -/
theorem C6_refractory_law (r : ℚ) (s : SatState) (cs : List AudioChunk)
    (hfire : ∀ c ∈ cs, ∃ m ∈ c.wake_fired, m.1 = true) :
    ((process_audio_run r s none cs).2.2.2.length = cs.length) ∧
    (∀ (i : Nat) (hi : i < cs.length)
        (hc : i < (process_audio_run r s none cs).2.2.2.length),
      (0 < (process_audio_run r s none cs).2.2.2[i] ↔
        (s.muted = false ∧
          gate r (last_forwarded none (cs.take i)
            ((process_audio_run r s none cs).2.2.2.take i)) cs[i].time))) ∧
    ((process_audio_run r s none cs).2.1 =
      last_forwarded none cs (process_audio_run r s none cs).2.2.2) ∧
    (0 ≤ r → ∀ (i : Nat) (hc : i < (process_audio_run r s none cs).2.2.2.length),
      (process_audio_run r s none cs).2.2.2[i] ≤ 1) ∧
    (∀ (i j : Nat) (hi : i < cs.length) (hj : j < cs.length)
        (hci : i < (process_audio_run r s none cs).2.2.2.length)
        (hcj : j < (process_audio_run r s none cs).2.2.2.length), i < j →
      0 < (process_audio_run r s none cs).2.2.2[i] →
      0 < (process_audio_run r s none cs).2.2.2[j] →
      (∀ (k : Nat) (hk : k < (process_audio_run r s none cs).2.2.2.length),
        i < k → k < j → (process_audio_run r s none cs).2.2.2[k] = 0) →
      cs[j].time - cs[i].time > r) := by
  obtain ⟨hlen, hmut, hlast, hiff, hle⟩ := process_audio_run_spec r cs s none hfire
  refine ⟨hlen, hiff, hlast, hle, ?_⟩
  intro i j hi hj hci hcj hij hpi hpj hzero
  have hgj := (hiff j hj hcj).mp hpj
  have htk : last_forwarded none (cs.take j)
      ((process_audio_run r s none cs).2.2.2.take j) = some cs[i].time := by
    have htake1 : i < (cs.take j).length := by
      rw [List.length_take]
      omega
    have htake2 : i < ((process_audio_run r s none cs).2.2.2.take j).length := by
      rw [List.length_take]
      omega
    have hgi : ((process_audio_run r s none cs).2.2.2.take j)[i] =
        (process_audio_run r s none cs).2.2.2[i] := List.getElem_take _
    have hci2 : (cs.take j)[i] = cs[i] := List.getElem_take _
    rw [last_forwarded_of_last_pos (cs.take j)
      ((process_audio_run r s none cs).2.2.2.take j) none i htake1 htake2
      (by rw [hgi]; exact hpi)
      (fun k hk hik => by
        have hkj : k < j := by
          rw [List.length_take] at hk
          omega
        have hke : ((process_audio_run r s none cs).2.2.2.take j)[k] =
            (process_audio_run r s none cs).2.2.2[k] := List.getElem_take _
        rw [hke]
        exact hzero k (by omega) hik hkj)]
    rw [hci2]
  rcases hgj.2 with hnone | ⟨t0, ht0, hgt⟩
  · rw [htk] at hnone
    exact absurd hnone (by simp)
  · rw [htk] at ht0
    have : t0 = cs[i].time := (Option.some.inj ht0).symm
    rw [this] at hgt
    exact hgt

/-- Witness for C6: a detector firing on chunks at times 0, 1 and 3 with
refractory interval 2. -/
theorem C6_witness :
    (process_audio_run 2 init_state none
      [⟨0, [(true, "okay nabu")], false, []⟩,
       ⟨1, [(true, "okay nabu")], false, []⟩,
       ⟨3, [(true, "okay nabu")], false, []⟩]).2.2.2.length = 3 :=
  (C6_refractory_law 2 init_state
    [⟨0, [(true, "okay nabu")], false, []⟩,
     ⟨1, [(true, "okay nabu")], false, []⟩,
     ⟨3, [(true, "okay nabu")], false, []⟩]
    (by intro c hc; fin_cases hc <;> exact ⟨(true, "okay nabu"), by simp, rfl⟩)).1

theorem newly_loaded_spec (loaded available : List String) :
    ∀ (req : List String) (nid : String),
    newly_loaded loaded available req = some nid →
    nid ∈ req ∧ nid ∈ available ∧ nid ∉ loaded := by
  intro req
  induction req with
  | nil =>
    intro nid h
    simp [newly_loaded] at h
  | cons id rest ih =>
    intro nid h
    simp only [newly_loaded] at h
    split_ifs at h with h1 h2
    · obtain ⟨hr, ha, hl⟩ := ih nid h
      exact ⟨by simp [hr], ha, hl⟩
    · cases h
      refine ⟨by simp, by simpa using h2, ?_⟩
      intro hmem
      have hc : loaded.contains id = true := by simpa using hmem
      exact absurd hc h1
    · obtain ⟨hr, ha, hl⟩ := ih nid h
      exact ⟨by simp [hr], ha, hl⟩

/-- The break semantics of the first loop, split at the first requested id
that triggers a load: everything before it contributes its already-loaded
ids; everything after it is ignored. -/
theorem active_after_char (loaded available : List String) :
    ∀ req : List String,
    (req.dropWhile
        (fun id => !(!loaded.contains id && available.contains id)) = [] →
      active_after loaded available req =
          req.filter (fun id => loaded.contains id) ∧
        newly_loaded loaded available req = none) ∧
    (∀ (nid : String) (rest : List String),
      req.dropWhile
          (fun id => !(!loaded.contains id && available.contains id)) = nid :: rest →
      active_after loaded available req =
          (req.takeWhile
            (fun id => !(!loaded.contains id && available.contains id))).filter
              (fun id => loaded.contains id) ++ [nid] ∧
        newly_loaded loaded available req = some nid) := by
  intro req
  induction req with
  | nil =>
    constructor
    · intro _
      exact ⟨rfl, rfl⟩
    · intro nid rest h
      simp at h
  | cons id rest ih =>
    cases h1 : loaded.contains id with
    | true =>
      constructor
      · intro hd
        simp only [List.dropWhile_cons, h1, Bool.not_true, Bool.false_and,
          Bool.not_false, eq_self_iff_true, if_true, ite_true] at hd
        obtain ⟨ha, hn⟩ := ih.1 hd
        constructor
        · simp only [active_after, h1, ha, List.takeWhile_cons, List.filter_cons,
            Bool.not_true, Bool.false_and, Bool.not_false, eq_self_iff_true,
            if_true, ite_true, List.cons_append]
        · simp only [newly_loaded, h1, eq_self_iff_true, if_true, ite_true, hn]
      · intro nid rest2 hd
        simp only [List.dropWhile_cons, h1, Bool.not_true, Bool.false_and,
          Bool.not_false, eq_self_iff_true, if_true, ite_true] at hd
        obtain ⟨ha, hn⟩ := ih.2 nid rest2 hd
        constructor
        · simp only [active_after, h1, ha, List.takeWhile_cons, List.filter_cons,
            Bool.not_true, Bool.false_and, Bool.not_false, eq_self_iff_true,
            if_true, ite_true, List.cons_append]
        · simp only [newly_loaded, h1, eq_self_iff_true, if_true, ite_true, hn]
    | false =>
      cases h2 : available.contains id with
      | true =>
        constructor
        · intro hd
          simp only [List.dropWhile_cons, h1, h2, Bool.not_false, Bool.true_and,
            Bool.not_true, Bool.false_eq_true, if_false, ite_false] at hd
          exact (List.cons_ne_nil _ _ hd).elim
        · intro nid rest2 hd
          simp only [List.dropWhile_cons, h1, h2, Bool.not_false, Bool.true_and,
            Bool.not_true, Bool.false_eq_true, if_false, ite_false] at hd
          injection hd with hnid hrest
          subst hnid
          constructor
          · simp only [active_after, h1, h2, Bool.false_eq_true, if_false,
              ite_false, eq_self_iff_true, if_true, ite_true,
              List.takeWhile_cons, Bool.not_false, Bool.true_and, Bool.not_true,
              List.filter_nil, List.nil_append]
          · simp only [newly_loaded, h1, h2, Bool.false_eq_true, if_false,
              ite_false, eq_self_iff_true, if_true, ite_true]
      | false =>
        constructor
        · intro hd
          simp only [List.dropWhile_cons, h1, h2, Bool.not_false, Bool.true_and,
            Bool.not_true, eq_self_iff_true, if_true, ite_true] at hd
          obtain ⟨ha, hn⟩ := ih.1 hd
          constructor
          · simp only [active_after, h1, h2, Bool.false_eq_true, if_false,
              ite_false, ha, List.filter_cons]
          · simp only [newly_loaded, h1, h2, Bool.false_eq_true, if_false,
              ite_false, hn]
        · intro nid rest2 hd
          simp only [List.dropWhile_cons, h1, h2, Bool.not_false, Bool.true_and,
            Bool.not_true, eq_self_iff_true, if_true, ite_true] at hd
          obtain ⟨ha, hn⟩ := ih.2 nid rest2 hd
          constructor
          · simp only [active_after, h1, h2, Bool.false_eq_true, if_false,
              ite_false, ha, List.filter_cons, List.takeWhile_cons,
              Bool.not_false, Bool.true_and, Bool.not_true, eq_self_iff_true,
              if_true, ite_true]
          · simp only [newly_loaded, h1, h2, Bool.false_eq_true, if_false,
              ite_false, hn]

/-- Claim C9, corrected (amended form): for every
`VoiceAssistantSetConfiguration` message, at most one model that is not
already loaded is loaded (the first requested id that is not loaded but
available), and it is appended to the loaded set; unrecognized ids are
skipped without error; every entry of the resulting table is active exactly
when its id is in the computed active set; and that active set consists of
the already-loaded ids requested BEFORE the break plus the newly loaded id —
an already-loaded id requested after the first new load is deactivated. -/
theorem C9_set_configuration_break (ww : List (String × Bool))
    (available requested : List String) :
    (newly_loaded (ww.map Prod.fst) available requested = none →
      (set_configuration ww available requested).map Prod.fst = ww.map Prod.fst) ∧
    (∀ nid : String,
      newly_loaded (ww.map Prod.fst) available requested = some nid →
      ((set_configuration ww available requested).map Prod.fst =
          ww.map Prod.fst ++ [nid] ∧
        nid ∈ requested ∧ nid ∈ available ∧ nid ∉ ww.map Prod.fst)) ∧
    (∀ (id : String) (b : Bool),
      (id, b) ∈ set_configuration ww available requested →
      (b = true ↔ id ∈ active_after (ww.map Prod.fst) available requested)) ∧
    (requested.dropWhile
        (fun id => !(!(ww.map Prod.fst).contains id && available.contains id)) = [] →
      active_after (ww.map Prod.fst) available requested =
        requested.filter (fun id => (ww.map Prod.fst).contains id)) ∧
    (∀ (nid : String) (rest : List String),
      requested.dropWhile
          (fun id => !(!(ww.map Prod.fst).contains id && available.contains id)) =
          nid :: rest →
      active_after (ww.map Prod.fst) available requested =
        (requested.takeWhile
          (fun id => !(!(ww.map Prod.fst).contains id && available.contains id))).filter
            (fun id => (ww.map Prod.fst).contains id) ++ [nid]) := by
  refine ⟨?_, ?_, ?_, ?_, ?_⟩
  · intro h
    simp [set_configuration, h, List.map_map]
  · intro nid h
    obtain ⟨hr, ha, hl⟩ := newly_loaded_spec (ww.map Prod.fst) available requested nid h
    refine ⟨?_, hr, ha, hl⟩
    simp [set_configuration, h, List.map_map]
  · intro id b hmem
    simp only [set_configuration, List.mem_map] at hmem
    obtain ⟨p, hp, heq⟩ := hmem
    have h1 : p.1 = id := congrArg Prod.fst heq
    have h2 : (active_after (ww.map Prod.fst) available requested).contains p.1 = b :=
      congrArg Prod.snd heq
    rw [← h1, ← h2]
    simp
  · intro h
    exact ((active_after_char (ww.map Prod.fst) available requested).1 h).1
  · intro nid rest h
    exact ((active_after_char (ww.map Prod.fst) available requested).2 nid rest h).1

/-- Witness for C9: loading the available id `"c"` requested after the
already-loaded `"b"`. -/
theorem C9_witness :
    (set_configuration [("b", true)] ["a", "c"] ["b", "c"]).map Prod.fst =
      ["b", "c"] ∧
    "c" ∈ (["a", "c"] : List String) :=
  ⟨((C9_set_configuration_break [("b", true)] ["a", "c"] ["b", "c"]).2.1
      "c" rfl).1,
   ((C9_set_configuration_break [("b", true)] ["a", "c"] ["b", "c"]).2.1
      "c" rfl).2.2.1⟩

/-- Counterexample for C9 as stated: with `"b"` already loaded and active,
`"a"` available but not loaded, the request `["a", "b"]` loads `"a"`,
breaks, and then deactivates `"b"` — the requested already-loaded id does
NOT stay active. -/
theorem C9_counterexample :
    set_configuration [("b", true)] ["a", "b"] ["a", "b"] =
      [("b", false), ("a", true)] := by
  rfl

theorem entity_subscribe_states_single (muted thinking_sound_enabled : Bool)
    (e : Entity) :
    entity_subscribe_states muted thinking_sound_enabled e =
      [entity_state_msg muted thinking_sound_enabled e] := by
  cases e <;> rfl

/-- Claim C10, confirmed: processing a `ConnectRequest` sends the empty
`ConnectResponse` acknowledgement followed by exactly one current-state
message per registered entity, in entity order, and sets the connected flag
true. -/
theorem C10_connect_states (s : SatState) (entities : List Entity) :
    ((process_connect s entities).1).connected = true ∧
    (process_connect s entities).1 = { s with connected := true } ∧
    (process_connect s entities).2 =
      OutMsg.connectResponse ::
        entities.map (entity_state_msg s.muted s.thinking_sound_enabled) := by
  refine ⟨rfl, rfl, ?_⟩
  simp only [process_connect, List.cons.injEq, true_and]
  induction entities with
  | nil => rfl
  | cons e es ih =>
    simp only [List.map_cons, List.flatten_cons, ih,
      entity_subscribe_states_single, List.cons_append, List.nil_append]

end LVA
